import Mathlib

/-!
Verification of the list-sharing application's list/auth services against its
natural-language specification.

The embedding follows the TypeScript sources:
* `src/src/services/listService.ts` (class `ListService`)
* `src/src/services/authService.ts` (class `AuthService`)
* the client list reducer (`listReducer`)
* `src/src/utils/validation.ts` (validators and schemas)
* `src/utils/constants.ts` — validation rules, type guards and message
  tables; its content appears after the document separator in
  `src/src/styles/theme.tsx`
* the type declarations in `src/src/types`.

Modelling conventions:
* JS timestamps (ISO strings compared through `Date.getTime`) are `Int`
  milliseconds; `getCurrentTimestamp()` is an explicit `now : Int` argument.
* `generateId()` is an explicit supply `freshId : Nat -> String`, indexed by
  the order of the `generateId()` calls inside one operation.
* The device key-value store (`AsyncStorage`, accessed only through
  `storage.getItem`/`storage.setItem` with keys `lists_<userId>`) is an
  association list `Store`; keys are unique by construction, so `setItem`
  replaces the first binding or appends.
* The in-memory cache (`Map<string, ListWithStats[]>`) is an association
  list as well; `Map.set`/`Map.delete` keep insertion order, as the model does.
* Storage writes never fail in the model (the `catch`/`saved === false`
  branches of the source deal with device I/O failure, which a pure
  embedding does not exhibit).
* JS floating-point percentages are modelled as exact rationals (`Pct`).
* Error messages are an inductive `ErrMsg`; each constructor corresponds to
  one distinct message string of the source (the Polish literals of
  `listService.ts`/`authService.ts` and the `ERROR_MESSAGES` constants).
-/

namespace ListApp

/-! ## Primitive string helpers

Models of the JS string primitives used by the services, implemented over
`List Char` so that every proof obligation on concrete data is kernel
computable. -/

/-- Character class of JS whitespace (ECMAScript WhiteSpace and
LineTerminator), used both by `String.prototype.trim` and by the regex class
`\s`. -/
def isWsChar (c : Char) : Bool :=
  c = ' ' || c = '\t' || c = '\n' || c = '\r' ||
  c.val = 0x0B || c.val = 0x0C || c.val = 0xA0 || c.val = 0x1680 ||
  (0x2000 ≤ c.val && c.val ≤ 0x200A) ||
  c.val = 0x2028 || c.val = 0x2029 || c.val = 0x202F || c.val = 0x205F ||
  c.val = 0x3000 || c.val = 0xFEFF

/-- Model of JS `s.trim()`. -/
def jsTrim (s : String) : String :=
  String.mk (((s.data.dropWhile isWsChar).reverse.dropWhile isWsChar).reverse)

/-- Model of JS `s.toLowerCase()`. -/
def jsToLower (s : String) : String :=
  String.mk (s.data.map Char.toLower)

/-- Model of JS `s.startsWith(pre)`. -/
def jsStartsWith (s pre : String) : Bool :=
  pre.data.isPrefixOf s.data

/-- Split a character list at every occurrence of the separator. -/
def splitChar (sep : Char) : List Char → List (List Char)
  | [] => [[]]
  | x :: xs =>
    let r := splitChar sep xs
    if x = sep then [] :: r
    else
      match r with
      | h :: t => (x :: h) :: t
      | [] => [[x]]

/-! ## Exact percentage arithmetic

The JS code computes completion percentages with floating-point `/` and `*`;
the model uses exact rationals in lowest terms, with a kernel-computable
normalization (the library rational's arithmetic is irreducible and defeats
`decide`). -/

/-- Fuel-based Euclid's algorithm (kernel computable). -/
def gcdFuel : Nat → Nat → Nat → Nat
  | 0, a, _ => a
  | f + 1, a, b => if b = 0 then a else gcdFuel f b (a % b)

/-- Greatest common divisor via `gcdFuel`. -/
def pgcd (a b : Nat) : Nat := gcdFuel (a + b + 1) a b

/-- Exact rational number in lowest terms with a positive denominator;
`den = 0` encodes the unreachable division-by-zero case. -/
structure Pct where
  num : Int
  den : Nat
deriving Repr, DecidableEq

/-- Normalize a numerator/denominator pair. -/
def mkPct (n d : Int) : Pct :=
  if d = 0 then ⟨0, 0⟩
  else
    let s : Int := if d < 0 then -1 else 1
    let n' := s * n
    let d' := (s * d).natAbs
    let g := pgcd n'.natAbs d'
    ⟨n' / (g : Int), d' / g⟩

/-- Exact quotient of two integers. -/
def Pct.div (a b : Int) : Pct := mkPct a b

/-- Multiplication of an exact rational by an integer. -/
def Pct.mulInt (x : Pct) (k : Int) : Pct := mkPct (x.num * k) (x.den : Int)

/-- Value zero. -/
def Pct.zero : Pct := ⟨0, 1⟩

/-- Value one hundred. -/
def Pct.hundred : Pct := ⟨100, 1⟩

/-- Strict comparison by cross multiplication. -/
def Pct.ltb (x y : Pct) : Bool :=
  decide (x.num * (y.den : Int) < y.num * (x.den : Int))

instance : LT Pct := ⟨fun x y => Pct.ltb x y = true⟩

instance : DecidableRel (α := Pct) (· < ·) := fun x y =>
  decidable_of_iff (Pct.ltb x y = true) Iff.rfl

/-! ## Data model (src/src/types/index.ts, src/src/types/lists.ts) -/

/-- Task record: `{id, text, completed, createdAt?, completedAt?}`. -/
structure Task where
  id : String
  text : String
  completed : Bool
  createdAt : Option Int := none
  completedAt : Option Int := none
deriving Repr, DecidableEq

/-- List record: `{id, title, ownerId, sharedWith, tasks, createdAt, updatedAt?}`. -/
structure ListRec where
  id : String
  title : String
  ownerId : String
  sharedWith : List String
  tasks : List Task
  createdAt : Int
  updatedAt : Option Int := none
deriving Repr, DecidableEq

/-- User record of the in-memory directory (`MOCK_USERS`); the directory is
mutable in the source (`signUp` appends to it), so the operations take it as
an explicit argument. -/
structure MUser where
  id : String
  email : String
  password : String
  name : String
  createdAt : Option Int := none
deriving Repr, DecidableEq

/-- Derived list statistics.  Counts are `Int` because the client reducer
updates them incrementally and can drive them below zero. -/
structure ListStatistics where
  totalTasks : Int
  completedTasks : Int
  pendingTasks : Int
  completionPercentage : Pct
  lastActivity : Int
deriving Repr, DecidableEq

/-- View projection `ListWithStats extends List` with statistics and
permission flags. -/
structure ListWithStats extends ListRec where
  statistics : ListStatistics
  isOwner : Bool
  isShared : Bool
  canEdit : Bool
  canDelete : Bool
  canShare : Bool
deriving Repr, DecidableEq

/-- Error taxonomy: one constructor per distinct error message the embedded
operations produce (spec section 7).  The source carries these as
human-readable strings — the literals of `listService.ts`/`authService.ts`
and the `ERROR_MESSAGES` table of `src/utils/constants.ts` (whose content
appears after the document separator in `src/src/styles/theme.tsx`); the
constructor names transliterate those messages. -/
inductive ErrMsg where
  | listNotFound          -- 'Lista nie została znaleziona'
  | taskNotFound          -- 'Zadanie nie zostało znalezione'
  | noEditPermission      -- 'Brak uprawnień do edycji tej listy'
  | onlyOwnerCanDelete    -- 'Tylko właściciel może usunąć listę'
  | onlyOwnerCanShare     -- 'Tylko właściciel może udostępnić listę'
  | alreadyShared         -- 'Lista jest już udostępniona temu użytkownikowi'
  | cannotShareWithSelf   -- 'Nie możesz udostępnić listy samemu sobie'
  | maxListsReached       -- 'Osiągnięto maksymalną liczbę list (50)'
  | maxSharedUsersExceeded
  | maxTasksExceeded
  | userNotFound
  | userExists
  | storageError
  | unknownError
  | invalidCredentials
  | accountLocked
  | requiredField
  | invalidEmail
  | passwordTooShort
  | passwordTooLong
  | nameTooShort
  | nameTooLong
  | passwordsNotMatch
  | listTitleRequired
  | listTitleTooLong
  | taskTextRequired
  | taskTextTooLong
deriving Repr, DecidableEq

/-- Classification of the error taxonomy (spec section 7): the three
permission-error messages of the list service. -/
def ErrMsg.isPermissionError : ErrMsg → Bool
  | .noEditPermission => true
  | .onlyOwnerCanDelete => true
  | .onlyOwnerCanShare => true
  | _ => false

/-- Result shape `{success, data?, error?, message?}` returned by every
service operation. -/
structure ApiResponse (α : Type) where
  success : Bool
  data : Option α := none
  error : Option ErrMsg := none
  message : Option String := none
deriving Repr, DecidableEq

/-! ## Storage model (src/utils/storage.ts, keys `lists_<userId>`) -/

/-- Persistent key-value store restricted to the list-collection keys. -/
abbrev Store := List (String × List ListRec)

/-- Key of a user's list collection: `STORAGE_KEYS.LISTS_PREFIX` is the
literal `'lists_'` (declared in `src/src/types/index.ts`). -/
def getUserListsKey (userId : String) : String := "lists_" ++ userId

/-- Model of `storage.getItem`: first binding of the key. -/
def getItem (st : Store) (k : String) : Option (List ListRec) :=
  (st.find? (fun p => p.1 == k)).map (·.2)

/-- Model of `storage.setItem`: replace the first binding or append. -/
def setItem : Store → String → List ListRec → Store
  | [], k, v => [(k, v)]
  | p :: rest, k, v => if p.1 == k then (k, v) :: rest else p :: setItem rest k v

/-- Stored list collection of one user, `|| []` applied as in the source. -/
def listsOf (st : Store) (userId : String) : List ListRec :=
  (getItem st (getUserListsKey userId)).getD []

/-! ## Validation (src/src/utils/validation.ts and the `VALIDATION_RULES`
and type guards of src/utils/constants.ts, whose content appears after the
document separator in src/src/styles/theme.tsx) -/

/-- Constant `VALIDATION_RULES.MIN_PASSWORD_LENGTH`. -/
def MIN_PASSWORD_LENGTH : Nat := 6

/-- Constant `VALIDATION_RULES.MAX_PASSWORD_LENGTH`. -/
def MAX_PASSWORD_LENGTH : Nat := 50

/-- Constant `VALIDATION_RULES.MAX_EMAIL_LENGTH`. -/
def MAX_EMAIL_LENGTH : Nat := 100

/-- Constant `VALIDATION_RULES.MAX_SHARED_USERS`. -/
def MAX_SHARED_USERS : Nat := 10

/-- Constant `VALIDATION_RULES.MAX_TASKS_PER_LIST`. -/
def MAX_TASKS_PER_LIST : Nat := 100

/-- Whether the character list has a `.` that is neither its first nor its
last element.  A string of non-whitespace, non-`@` characters matches
`[^\s@]+\.[^\s@]+` exactly when such an interior dot exists (the pieces on
either side of the regex's literal dot may themselves contain dots). -/
def hasInteriorDot (l : List Char) : Bool :=
  (List.range l.length).any (fun i =>
    decide (0 < i) && decide (i + 1 < l.length) && l[i]? == some '.')

/-- Type guard `isValidEmail` of `constants.ts`: the anchored regex
`[^\s@]+@[^\s@]+\.[^\s@]+` — exactly one `@` (the class excludes it),
no whitespace anywhere, a nonempty local part, and a domain decomposable as
nonempty piece, dot, nonempty piece — conjoined with
`email.length <= MAX_EMAIL_LENGTH`. -/
def isValidEmail (s : String) : Bool :=
  (match splitChar '@' s.data with
   | [localPart, domain] =>
       localPart.length > 0 &&
       localPart.all (fun c => !isWsChar c) &&
       domain.all (fun c => !isWsChar c) &&
       hasInteriorDot domain
   | _ => false) &&
  s.length ≤ MAX_EMAIL_LENGTH

/-- Type guard `isValidListTitle` of `constants.ts`: trimmed length between
`MIN_LIST_TITLE_LENGTH = 1` and `MAX_LIST_TITLE_LENGTH = 100`. -/
def isValidListTitle (s : String) : Bool :=
  (jsTrim s).length ≥ 1 && (jsTrim s).length ≤ 100

/-- Type guard `isValidTaskText` of `constants.ts`: trimmed length between
`MIN_TASK_TEXT_LENGTH = 1` and `MAX_TASK_TEXT_LENGTH = 200`. -/
def isValidTaskText (s : String) : Bool :=
  (jsTrim s).length ≥ 1 && (jsTrim s).length ≤ 200

/-- Type guard `isValidPassword` of `constants.ts`: length between
`MIN_PASSWORD_LENGTH = 6` and `MAX_PASSWORD_LENGTH = 50`. -/
def isValidPassword (s : String) : Bool :=
  s.length ≥ MIN_PASSWORD_LENGTH && s.length ≤ MAX_PASSWORD_LENGTH

/-- Validator `validators.email`. -/
def validateEmail (email : String) : Option ErrMsg :=
  if jsTrim email = "" then some .requiredField
  else if !isValidEmail email then some .invalidEmail
  else none

/-- Validator `validators.password`. -/
def validatePassword (password : String) : Option ErrMsg :=
  if password = "" then some .requiredField
  else if !isValidPassword password then
    (if password.length < MIN_PASSWORD_LENGTH then some .passwordTooShort
     else if password.length > MAX_PASSWORD_LENGTH then some .passwordTooLong
     else none)
  else none

/-- Validator `validators.listTitle`. -/
def validateListTitle (title : String) : Option ErrMsg :=
  if jsTrim title = "" then some .listTitleRequired
  else if !isValidListTitle title then some .listTitleTooLong
  else none

/-- Validator `validators.taskText`. -/
def validateTaskText (text : String) : Option ErrMsg :=
  if jsTrim text = "" then some .taskTextRequired
  else if !isValidTaskText text then some .taskTextTooLong
  else none

/-- Validation result (`isValid` plus the ordered error list; the `errors`
object of the source is the same data re-keyed by field name). -/
structure ValidationResult where
  isValid : Bool
  errorList : List (String × ErrMsg)
deriving Repr, DecidableEq

/-- Schema `validationSchemas.login`. -/
def loginSchema (email password : String) : ValidationResult :=
  let errs :=
    (match validateEmail email with
     | some e => [("email", e)] | none => []) ++
    (match validatePassword password with
     | some e => [("password", e)] | none => [])
  ⟨errs.length == 0, errs⟩

/-- Schema `validationSchemas.createList`. -/
def createListSchema (title : String) (tasks : List String) : ValidationResult :=
  let titleErrs :=
    match validateListTitle title with
    | some e => [("title", e)] | none => []
  let countErrs :=
    if tasks.length > MAX_TASKS_PER_LIST then [("tasks", ErrMsg.maxTasksExceeded)] else []
  let taskErrs :=
    (tasks.enum.filterMap (fun p =>
      if jsTrim p.2 ≠ "" then
        match validateTaskText p.2 with
        | some e => some ("task_" ++ toString p.1, e)
        | none => none
      else none))
  let errs := titleErrs ++ countErrs ++ taskErrs
  ⟨errs.length == 0, errs⟩

/-- Schema `validationSchemas.addTask`. -/
def addTaskSchema (text : String) : ValidationResult :=
  let errs :=
    match validateTaskText text with
    | some e => [("taskText", e)] | none => []
  ⟨errs.length == 0, errs⟩

/-- Schema `validationSchemas.shareList`. -/
def shareListSchema (email : String) : ValidationResult :=
  let errs :=
    match validateEmail email with
    | some e => [("email", e)] | none => []
  ⟨errs.length == 0, errs⟩

/-! ## Statistics and permissions (listService.ts lines 44-70, 128-148) -/

/-- Method `calculateStatistics`: recompute counts and percentage from the
current task sequence; completion percentage is `completed/total*100`, or 0
for an empty list; `lastActivity` is `updatedAt || createdAt`. -/
def calculateStatistics (l : ListRec) : ListStatistics :=
  let totalTasks : Int := l.tasks.length
  let completedTasks : Int := (l.tasks.filter (fun t => t.completed)).length
  { totalTasks := totalTasks
    completedTasks := completedTasks
    pendingTasks := totalTasks - completedTasks
    completionPercentage :=
      if totalTasks > 0 then (Pct.div completedTasks totalTasks).mulInt 100 else Pct.zero
    lastActivity := l.updatedAt.getD l.createdAt }

/-- Method `getCurrentUserEmail`: email of the requester in the user
directory, when present. -/
def getCurrentUserEmail (users : List MUser) (userId : String) : Option String :=
  (users.find? (fun u => u.id == userId)).map (·.email)

/-- Method `canUserEditList`: owner, or email membership in `sharedWith`. -/
def canUserEditList (users : List MUser) (l : ListRec) (userId : String) : Bool :=
  if l.ownerId == userId then true
  else
    match getCurrentUserEmail users userId with
    | some e => l.sharedWith.contains e
    | none => false

/-- Method `enrichList`: attach statistics and viewer-relative flags. -/
def enrichList (users : List MUser) (l : ListRec) (currentUserId : String) : ListWithStats :=
  let statistics := calculateStatistics l
  let isOwner := l.ownerId == currentUserId
  let isShared := l.sharedWith.length > 0
  let isSharedWithCurrentUser :=
    match getCurrentUserEmail users currentUserId with
    | some e => l.sharedWith.contains e
    | none => false
  { toListRec := l
    statistics := statistics
    isOwner := isOwner
    isShared := isShared
    canEdit := isOwner || isSharedWithCurrentUser
    canDelete := isOwner
    canShare := isOwner }

/-! ## List lookup (listService.ts lines 73-125) -/

/-- Result record of `findListById`. -/
structure FoundList where
  list : ListRec
  ownerId : String
  listIndex : Nat
  ownerLists : List ListRec
deriving Repr, DecidableEq

/-- First index and element satisfying the test, as `Array.findIndex`
followed by the element access. -/
def findIdxElem (p : α → Bool) : List α → Option (Nat × α)
  | [] => none
  | x :: xs => if p x then some (0, x) else (findIdxElem p xs).map (fun q => (q.1 + 1, q.2))

/-- Second pass of `findListById`: scan the remaining users' collections for
a shared list with the matching id. -/
def sharedPass (st : Store) (userId listId email : String) : List MUser → Option FoundList
  | [] => none
  | u :: rest =>
    if u.id ≠ userId then
      match findIdxElem (fun l => l.id == listId && l.sharedWith.contains email)
          ((getItem st (getUserListsKey u.id)).getD []) with
      | some (i, l) => some ⟨l, u.id, i, (getItem st (getUserListsKey u.id)).getD []⟩
      | none => sharedPass st userId listId email rest
    else sharedPass st userId listId email rest

/-- Method `findListById`: owned lists first, then every other known user's
collection in directory order. -/
def findListById (users : List MUser) (st : Store) (userId listId : String) :
    Option FoundList :=
  match findIdxElem (fun l => l.id == listId) ((getItem st (getUserListsKey userId)).getD []) with
  | some (i, l) => some ⟨l, userId, i, (getItem st (getUserListsKey userId)).getD []⟩
  | none =>
    match getCurrentUserEmail users userId with
    | none => none
    | some email => sharedPass st userId listId email users

/-! ## Filters and cache (listService.ts lines 27, 150-215, 224, 322-367) -/

/-- Sort keys of `ListFilter.sortBy`. -/
inductive SortKey where
  | title | createdAt | updatedAt | completionPercentage
deriving Repr, DecidableEq

/-- Sort directions of `ListFilter.sortOrder`. -/
inductive SortOrder where
  | asc | desc
deriving Repr, DecidableEq

/-- Filter options; every field is optional as in the TS interface. -/
structure ListFilter where
  searchTerm : Option String := none
  showCompleted : Option Bool := none
  showShared : Option Bool := none
  showOwned : Option Bool := none
  sortBy : Option SortKey := none
  sortOrder : Option SortOrder := none
deriving Repr, DecidableEq

/-- Deterministic serialization of a filter, the model of
`JSON.stringify(filter)` inside the cache key. -/
def serializeFilter (f : ListFilter) : String :=
  (match f.searchTerm with | some s => "s:" ++ s | none => "") ++ "|" ++
  (match f.showCompleted with | some b => "c:" ++ toString b | none => "") ++ "|" ++
  (match f.showShared with | some b => "h:" ++ toString b | none => "") ++ "|" ++
  (match f.showOwned with | some b => "o:" ++ toString b | none => "") ++ "|" ++
  (match f.sortBy with
   | some .title => "b:title" | some .createdAt => "b:createdAt"
   | some .updatedAt => "b:updatedAt" | some .completionPercentage => "b:pct"
   | none => "") ++ "|" ++
  (match f.sortOrder with | some .asc => "r:asc" | some .desc => "r:desc" | none => "")

/-- Cache of `ListService`: a `Map` from `userId ++ "_" ++ serialized filter`
to enriched result lists, in insertion order. -/
abbrev Cache := List (String × List ListWithStats)

/-- Cache read (`Map.get`). -/
def cacheGet (c : Cache) (k : String) : Option (List ListWithStats) :=
  (c.find? (fun p => p.1 == k)).map (·.2)

/-- Cache write (`Map.set`): overwrite in place or append. -/
def cacheSet : Cache → String → List ListWithStats → Cache
  | [], k, v => [(k, v)]
  | p :: rest, k, v => if p.1 == k then (k, v) :: rest else p :: cacheSet rest k v

/-- Method `clearCache(userId)`: drop every cache key starting with the
user id. -/
def clearCacheFor (userId : String) (c : Cache) : Cache :=
  c.filter (fun p => !(jsStartsWith p.1 userId))

/-- Method `clearCacheForSharedListUsers`: collect the collaborator emails of
the saved collection and clear those users' caches. -/
def clearCacheForSharedListUsers (users : List MUser) (lists : List ListRec) (c : Cache) :
    Cache :=
  let emails := lists.foldl
    (fun acc l => l.sharedWith.foldl
      (fun a e => if a.contains e then a else a ++ [e]) acc) []
  emails.foldl (fun c e =>
    match users.find? (fun u => u.email == e) with
    | some u => clearCacheFor u.id c
    | none => c) c

/-- Substring test (model of JS `String.includes`). -/
def strContainsSub (s sub : String) : Bool :=
  (List.range (s.data.length + 1)).any (fun i => sub.data.isPrefixOf (s.data.drop i))

/-- Three-way comparison returning the JS comparator convention, with the
`desc` inversion applied as in the source. -/
def cmpBy {α : Type} [LT α] [DecidableRel (α := α) (· < ·)] (desc : Bool) (a b : α) : Int :=
  if a < b then (if desc then 1 else -1)
  else if b < a then (if desc then -1 else 1)
  else 0

/-- Comparator of the sorting pass of `filterLists`. -/
def listComparator (f : ListFilter) (a b : ListWithStats) : Int :=
  let desc := f.sortOrder == some .desc
  match f.sortBy with
  | some .title => cmpBy desc (jsToLower a.title) (jsToLower b.title)
  | some .createdAt => cmpBy desc a.createdAt b.createdAt
  | some .updatedAt => cmpBy desc (a.updatedAt.getD a.createdAt) (b.updatedAt.getD b.createdAt)
  | some .completionPercentage =>
      cmpBy desc a.statistics.completionPercentage b.statistics.completionPercentage
  | none => 0

/-- Stable insertion of one element behind every earlier element that does not
compare strictly greater. -/
def insertOrdered (c : α → α → Int) (x : α) : List α → List α
  | [] => [x]
  | y :: ys => if c x y < 0 then x :: y :: ys else y :: insertOrdered c x ys

/-- Stable sort by a JS-style comparator (JS `Array.sort` is stable). -/
def stableSortBy (c : α → α → Int) (l : List α) : List α :=
  l.foldl (fun acc x => insertOrdered c x acc) []

/-- Method `filterLists`: search filter, ownership filter, completion filter,
then the optional sorting pass. -/
def filterLists (f : ListFilter) (lists : List ListWithStats) : List ListWithStats :=
  let l1 :=
    match f.searchTerm with
    | some s =>
      if jsTrim s ≠ "" then
        let term := jsTrim (jsToLower s)
        lists.filter (fun l =>
          strContainsSub (jsToLower l.title) term ||
          l.tasks.any (fun t => strContainsSub (jsToLower t.text) term))
      else lists
    | none => lists
  let l2 :=
    if f.showOwned.isSome || f.showShared.isSome then
      l1.filter (fun l =>
        let so := f.showOwned.getD false
        let sh := f.showShared.getD false
        if so && sh then true
        else if so && !sh then l.isOwner
        else if !so && sh then l.isShared
        else false)
    else l1
  let l3 :=
    match f.showCompleted with
    | some b => if !b then l2.filter (fun l => Pct.ltb l.statistics.completionPercentage Pct.hundred) else l2
    | none => l2
  match f.sortBy with
  | some _ => stableSortBy (listComparator f) l3
  | none => l3

/-! ## Service state and operations (listService.ts lines 217-957) -/

/-- Combined mutable state of the service: device storage plus cache. -/
structure SvcState where
  store : Store
  cache : Cache
deriving Repr, DecidableEq

/-- Ambient inputs of one operation: the user directory (`MOCK_USERS`), the
clock (`getCurrentTimestamp`) and the id supply (`generateId`, indexed in call
order). -/
structure Ctx where
  users : List MUser
  now : Int
  freshId : Nat → String

/-- Failure result. -/
def fail {α : Type} (e : ErrMsg) : ApiResponse α :=
  { success := false, error := some e }

/-- Success result with data. -/
def succeed {α : Type} (d : α) (m : String) : ApiResponse α :=
  { success := true, data := some d, message := some m }

/-- First message of a validation error list (`errorList[0]?.message ||
fallback`). -/
def firstErr (v : ValidationResult) (fallback : ErrMsg) : ErrMsg :=
  match v.errorList with
  | (_, e) :: _ => e
  | [] => fallback

/-- Method `saveUserLists`: persist the collection, clear the writer's cache
entries, then clear the caches of every user found in the saved collection's
`sharedWith` emails. -/
def saveUserLists (ctx : Ctx) (st : SvcState) (userId : String) (lists : List ListRec) :
    SvcState :=
  { store := setItem st.store (getUserListsKey userId) lists
    cache := clearCacheForSharedListUsers ctx.users lists (clearCacheFor userId st.cache) }

/-- Sample data seeded on a user's first-ever load (loadUserLists lines
240-271); `generateId` calls are numbered in evaluation order. -/
def sampleLists (ctx : Ctx) (userId : String) : List ListRec :=
  [ { id := ctx.freshId 0
      title := "Zakupy spożywcze"
      ownerId := userId
      sharedWith := []
      tasks :=
        [ { id := ctx.freshId 1, text := "Mleko", completed := false }
        , { id := ctx.freshId 2, text := "Chleb", completed := true }
        , { id := ctx.freshId 3, text := "Jajka", completed := false }
        , { id := ctx.freshId 4, text := "Masło", completed := false } ]
      createdAt := ctx.now }
  , { id := ctx.freshId 5
      title := "Zadania do wykonania"
      ownerId := userId
      sharedWith := ["anna@example.com"]
      tasks :=
        [ { id := ctx.freshId 6, text := "Przygotować prezentację", completed := false }
        , { id := ctx.freshId 7, text := "Zadzwonić do klienta", completed := true }
        , { id := ctx.freshId 8, text := "Wysłać raport", completed := false } ]
      createdAt := ctx.now } ]

/-- Shared-list discovery loop of `loadUserLists` (lines 276-296): for every
other user whose collection is present, take the lists shared with the
requester's email. -/
def collectShared (users : List MUser) (st : Store) (userId : String) : List ListRec :=
  match getCurrentUserEmail users userId with
  | none => []
  | some email =>
      users.foldl (fun acc u =>
        if u.id ≠ userId then
          match getItem st (getUserListsKey u.id) with
          | some uls => acc ++ uls.filter (fun l => l.sharedWith.contains email)
          | none => acc
        else acc) []

/-- Method `loadUserLists`: cache hit, else read (seeding sample data on a
missing collection), union with discovered shared lists, enrich, filter, and
cache the result. -/
def loadUserLists (ctx : Ctx) (st : SvcState) (userId : String) (f : ListFilter) :
    ApiResponse (List ListWithStats) × SvcState :=
  let cacheKey := userId ++ "_" ++ serializeFilter f
  match cacheGet st.cache cacheKey with
  | some cached => (succeed cached "Lists loaded from cache", st)
  | none =>
    let listsKey := getUserListsKey userId
    let storedLists := getItem st.store listsKey
    let seeded := sampleLists ctx userId
    let allLists := match storedLists with
      | none => seeded
      | some ls => ls
    let store1 := match storedLists with
      | none => setItem st.store listsKey seeded
      | some _ => st.store
    let sharedLists := collectShared ctx.users store1 userId
    let combined := allLists ++ sharedLists
    let enriched := combined.map (fun l => enrichList ctx.users l userId)
    let filtered := filterLists f enriched
    let cache1 := cacheSet st.cache cacheKey filtered
    (succeed filtered
       (if storedLists.isSome then "Lists loaded successfully" else "Sample lists initialized"),
     { store := store1, cache := cache1 })

/-- Payload of `createList`. -/
structure CreateListPayload where
  title : String
  initialTasks : Option (List String) := none
deriving Repr, DecidableEq

/-- Payload of `updateList`. -/
structure UpdateListPayload where
  title : Option String := none
  sharedWith : Option (List String) := none
deriving Repr, DecidableEq

/-- Payload of `addTask`. -/
structure CreateTaskPayload where
  text : String
  listId : String
deriving Repr, DecidableEq

/-- Payload of `updateTask`. -/
structure UpdateTaskPayload where
  text : Option String := none
  completed : Option Bool := none
deriving Repr, DecidableEq

/-- Payload of `shareList`. -/
structure ShareListPayload where
  listId : String
  userEmail : String
deriving Repr, DecidableEq

/-- Method `createList` (lines 370-440): validate, enforce the 50-list
ceiling, then prepend the new list to the owner's collection. -/
def createList (ctx : Ctx) (st : SvcState) (userId : String) (p : CreateListPayload) :
    ApiResponse ListWithStats × SvcState :=
  let validation := createListSchema p.title (p.initialTasks.getD [])
  if !validation.isValid then
    (fail (firstErr validation .unknownError), st)
  else
    let currentLists := listsOf st.store userId
    if currentLists.length ≥ 50 then
      (fail .maxListsReached, st)
    else
      let newList : ListRec :=
        { id := ctx.freshId 0
          title := jsTrim p.title
          ownerId := userId
          sharedWith := []
          tasks := (p.initialTasks.getD []).enum.map (fun q =>
            { id := ctx.freshId (q.1 + 1)
              text := jsTrim q.2
              completed := false
              createdAt := some ctx.now })
          createdAt := ctx.now }
      let st' := saveUserLists ctx st userId (newList :: currentLists)
      (succeed (enrichList ctx.users newList userId) "Lista została utworzona", st')

/-- Method `updateList` (lines 443-511): locate, check edit permission,
validate a provided title, merge the provided fields, bump `updatedAt`. -/
def updateList (ctx : Ctx) (st : SvcState) (userId listId : String) (u : UpdateListPayload) :
    ApiResponse ListWithStats × SvcState :=
  match findListById ctx.users st.store userId listId with
  | none => (fail .listNotFound, st)
  | some fd =>
    if !canUserEditList ctx.users fd.list userId then
      (fail .noEditPermission, st)
    else
      match (match u.title with | some t => validateListTitle t | none => none) with
      | some e => (fail e, st)
      | none =>
        let updatedList : ListRec :=
          { fd.list with
            title := match u.title with
              | some t => if jsTrim t == "" then fd.list.title else jsTrim t
              | none => fd.list.title
            sharedWith := u.sharedWith.getD fd.list.sharedWith
            updatedAt := some ctx.now }
        let st' := saveUserLists ctx st fd.ownerId (fd.ownerLists.set fd.listIndex updatedList)
        (succeed (enrichList ctx.users updatedList userId) "Lista została zaktualizowana", st')

/-- Method `deleteList` (lines 514-555): the requester's own collection only;
owner-only permission check; remove by id. -/
def deleteList (ctx : Ctx) (st : SvcState) (userId listId : String) :
    ApiResponse Unit × SvcState :=
  let currentLists := listsOf st.store userId
  match currentLists.find? (fun l => l.id == listId) with
  | none => (fail .listNotFound, st)
  | some list =>
    if list.ownerId ≠ userId then
      (fail .onlyOwnerCanDelete, st)
    else
      let st' := saveUserLists ctx st userId (currentLists.filter (fun l => !(l.id == listId)))
      ({ success := true, message := some "Lista została usunięta" }, st')

/-- Method `shareList` (lines 558-653): validate the email, resolve the
target, reject self-share, locate in the requester's own collection,
owner-only check, duplicate check, ceiling check, append, and additionally
clear the target user's cache. -/
def shareList (ctx : Ctx) (st : SvcState) (userId : String) (p : ShareListPayload) :
    ApiResponse Unit × SvcState :=
  let emailValidation := shareListSchema p.userEmail
  if !emailValidation.isValid then
    (fail (firstErr emailValidation .invalidEmail), st)
  else
    match ctx.users.find? (fun u => u.email == p.userEmail) with
    | none => (fail .userNotFound, st)
    | some target =>
      if target.id == userId then
        (fail .cannotShareWithSelf, st)
      else
        let currentLists := listsOf st.store userId
        match findIdxElem (fun l => l.id == p.listId) currentLists with
        | none => (fail .listNotFound, st)
        | some (i, list) =>
          if list.ownerId ≠ userId then
            (fail .onlyOwnerCanShare, st)
          else if list.sharedWith.contains p.userEmail then
            (fail .alreadyShared, st)
          else if list.sharedWith.length ≥ MAX_SHARED_USERS then
            (fail .maxSharedUsersExceeded, st)
          else
            let updatedList : ListRec :=
              { list with
                sharedWith := list.sharedWith ++ [p.userEmail]
                updatedAt := some ctx.now }
            let st' := saveUserLists ctx st userId (currentLists.set i updatedList)
            ({ success := true, message := some "Lista została udostępniona" },
             { st' with cache := clearCacheFor target.id st'.cache })

/-- Method `addTask` (lines 656-728): validate the text, locate, check edit
permission, enforce the 100-task ceiling, append the new task. -/
def addTask (ctx : Ctx) (st : SvcState) (userId : String) (p : CreateTaskPayload) :
    ApiResponse Task × SvcState :=
  let validation := addTaskSchema p.text
  if !validation.isValid then
    (fail (firstErr validation .taskTextRequired), st)
  else
    match findListById ctx.users st.store userId p.listId with
    | none => (fail .listNotFound, st)
    | some fd =>
      if !canUserEditList ctx.users fd.list userId then
        (fail .noEditPermission, st)
      else if fd.list.tasks.length ≥ MAX_TASKS_PER_LIST then
        (fail .maxTasksExceeded, st)
      else
        let newTask : Task :=
          { id := ctx.freshId 0
            text := jsTrim p.text
            completed := false
            createdAt := some ctx.now }
        let updatedList : ListRec :=
          { fd.list with
            tasks := fd.list.tasks ++ [newTask]
            updatedAt := some ctx.now }
        let st' := saveUserLists ctx st fd.ownerId (fd.ownerLists.set fd.listIndex updatedList)
        (succeed newTask "Zadanie zostało dodane", st')

/-- Method `updateTask` (lines 731-821): locate list and task, check edit
permission, validate a provided text, merge, set `completedAt` on a
false-to-true transition. -/
def updateTask (ctx : Ctx) (st : SvcState) (userId listId taskId : String)
    (u : UpdateTaskPayload) : ApiResponse Task × SvcState :=
  match findListById ctx.users st.store userId listId with
  | none => (fail .listNotFound, st)
  | some fd =>
    if !canUserEditList ctx.users fd.list userId then
      (fail .noEditPermission, st)
    else
      match findIdxElem (fun t => t.id == taskId) fd.list.tasks with
      | none => (fail .taskNotFound, st)
      | some (ti, task) =>
        match (match u.text with | some t => validateTaskText t | none => none) with
        | some e => (fail e, st)
        | none =>
          let updatedTask : Task :=
            { task with
              text := match u.text with
                | some t => if jsTrim t == "" then task.text else jsTrim t
                | none => task.text
              completed := u.completed.getD task.completed
              completedAt :=
                if u.completed.getD false && !task.completed then some ctx.now
                else task.completedAt }
          let updatedList : ListRec :=
            { fd.list with
              tasks := fd.list.tasks.set ti updatedTask
              updatedAt := some ctx.now }
          let st' := saveUserLists ctx st fd.ownerId (fd.ownerLists.set fd.listIndex updatedList)
          (succeed updatedTask "Zadanie zostało zaktualizowane", st')

/-- Method `deleteTask` (lines 824-880): locate, check edit permission,
require the task to exist, filter it out. -/
def deleteTask (ctx : Ctx) (st : SvcState) (userId listId taskId : String) :
    ApiResponse Unit × SvcState :=
  match findListById ctx.users st.store userId listId with
  | none => (fail .listNotFound, st)
  | some fd =>
    if !canUserEditList ctx.users fd.list userId then
      (fail .noEditPermission, st)
    else if !(fd.list.tasks.any (fun t => t.id == taskId)) then
      (fail .taskNotFound, st)
    else
      let updatedList : ListRec :=
        { fd.list with
          tasks := fd.list.tasks.filter (fun t => !(t.id == taskId))
          updatedAt := some ctx.now }
      let st' := saveUserLists ctx st fd.ownerId (fd.ownerLists.set fd.listIndex updatedList)
      ({ success := true, message := some "Zadanie zostało usunięte" }, st')

/-- Method `toggleTask` (lines 883-957): locate list and task, check edit
permission, flip `completed`, and set `completedAt` to now when completing or
to `undefined` when un-completing. -/
def toggleTask (ctx : Ctx) (st : SvcState) (userId listId taskId : String) :
    ApiResponse Task × SvcState :=
  match findListById ctx.users st.store userId listId with
  | none => (fail .listNotFound, st)
  | some fd =>
    if !canUserEditList ctx.users fd.list userId then
      (fail .noEditPermission, st)
    else
      match findIdxElem (fun t => t.id == taskId) fd.list.tasks with
      | none => (fail .taskNotFound, st)
      | some (ti, task) =>
        let updatedTask : Task :=
          { task with
            completed := !task.completed
            completedAt := if !task.completed then some ctx.now else none }
        let updatedList : ListRec :=
          { fd.list with
            tasks := fd.list.tasks.set ti updatedTask
            updatedAt := some ctx.now }
        let st' := saveUserLists ctx st fd.ownerId (fd.ownerLists.set fd.listIndex updatedList)
        (succeed updatedTask
           (if updatedTask.completed then "Zadanie zostało ukończone" else "Zadanie zostało oznaczone jako nieukończone"), st')

/-! ## Client list reducer (listReducer, context module) -/

/-- Partial task update (`Partial<Task>`); a `some` field overrides on the
spread merge `{...task, ...updates}`. -/
structure PartialTask where
  id : Option String := none
  text : Option String := none
  completed : Option Bool := none
  createdAt : Option (Option Int) := none
  completedAt : Option (Option Int) := none
deriving Repr, DecidableEq

/-- Spread merge `{...task, ...updates}`. -/
def mergeTask (t : Task) (u : PartialTask) : Task :=
  { id := u.id.getD t.id
    text := u.text.getD t.text
    completed := u.completed.getD t.completed
    createdAt := u.createdAt.getD t.createdAt
    completedAt := u.completedAt.getD t.completedAt }

/-- Partial list update (`Partial<ListWithStats>`). -/
structure PartialListWithStats where
  id : Option String := none
  title : Option String := none
  ownerId : Option String := none
  sharedWith : Option (List String) := none
  tasks : Option (List Task) := none
  createdAt : Option Int := none
  updatedAt : Option (Option Int) := none
  statistics : Option ListStatistics := none
  isOwner : Option Bool := none
  isShared : Option Bool := none
  canEdit : Option Bool := none
  canDelete : Option Bool := none
  canShare : Option Bool := none
deriving Repr, DecidableEq

/-- Spread merge `{...list, ...updates}`. -/
def mergeListWithStats (l : ListWithStats) (u : PartialListWithStats) : ListWithStats :=
  { toListRec :=
      { id := u.id.getD l.id
        title := u.title.getD l.title
        ownerId := u.ownerId.getD l.ownerId
        sharedWith := u.sharedWith.getD l.sharedWith
        tasks := u.tasks.getD l.tasks
        createdAt := u.createdAt.getD l.createdAt
        updatedAt := u.updatedAt.getD l.updatedAt }
    statistics := u.statistics.getD l.statistics
    isOwner := u.isOwner.getD l.isOwner
    isShared := u.isShared.getD l.isShared
    canEdit := u.canEdit.getD l.canEdit
    canDelete := u.canDelete.getD l.canDelete
    canShare := u.canShare.getD l.canShare }

/-- Partial filter update (`Partial<ListFilter>`). -/
structure PartialListFilter where
  searchTerm : Option (Option String) := none
  showCompleted : Option (Option Bool) := none
  showShared : Option (Option Bool) := none
  showOwned : Option (Option Bool) := none
  sortBy : Option (Option SortKey) := none
  sortOrder : Option (Option SortOrder) := none
deriving Repr, DecidableEq

/-- Spread merge `{...state.filter, ...payload}`. -/
def mergeFilter (f : ListFilter) (u : PartialListFilter) : ListFilter :=
  { searchTerm := u.searchTerm.getD f.searchTerm
    showCompleted := u.showCompleted.getD f.showCompleted
    showShared := u.showShared.getD f.showShared
    showOwned := u.showOwned.getD f.showOwned
    sortBy := u.sortBy.getD f.sortBy
    sortOrder := u.sortOrder.getD f.sortOrder }

/-- Client list state (`ListState`). -/
structure ListState where
  lists : List ListWithStats
  loading : Bool
  error : Option String
  filter : ListFilter
  selectedListId : Option String
  lastSync : Option Int
deriving Repr, DecidableEq

/-- Initial state `initialListState`. -/
def initialListState : ListState :=
  { lists := []
    loading := false
    error := none
    filter :=
      { sortBy := some .createdAt
        sortOrder := some .desc
        showCompleted := some true
        showShared := some true
        showOwned := some true }
    selectedListId := none
    lastSync := none }

/-- Reducer actions (`ListAction`). -/
inductive ListAction where
  | setLoading (b : Bool)
  | setError (e : Option String)
  | clearError
  | setLists (ls : List ListWithStats)
  | addList (l : ListWithStats)
  | updateListA (listId : String) (updates : PartialListWithStats)
  | deleteListA (listId : String)
  | addTaskA (listId : String) (task : Task)
  | updateTaskA (listId taskId : String) (updates : PartialTask)
  | deleteTaskA (listId taskId : String)
  | setFilter (f : PartialListFilter)
  | setSelectedList (id : Option String)
  | setLastSync (t : Int)
deriving Repr, DecidableEq

/-- The client `listReducer`.  `ADD_TASK` and `DELETE_TASK` adjust the stored
statistics incrementally; `UPDATE_TASK` recomputes them from the updated task
sequence; `getCurrentTimestamp()` is the `now` argument. -/
def listReducer (now : Int) (state : ListState) (action : ListAction) : ListState :=
  match action with
  | .setLoading b => { state with loading := b }
  | .setError e => { state with error := e, loading := false }
  | .clearError => { state with error := none }
  | .setLists ls =>
      { state with lists := ls, loading := false, error := none, lastSync := some now }
  | .addList l => { state with lists := l :: state.lists, error := none }
  | .updateListA listId updates =>
      { state with
        lists := state.lists.map (fun l =>
          if l.id == listId then mergeListWithStats l updates else l)
        error := none }
  | .deleteListA listId =>
      { state with
        lists := state.lists.filter (fun l => !(l.id == listId))
        selectedListId := if state.selectedListId == some listId then none
                          else state.selectedListId
        error := none }
  | .addTaskA listId task =>
      { state with
        lists := state.lists.map (fun l =>
          if l.id == listId then
            { l with
              tasks := l.tasks ++ [task]
              statistics :=
                { l.statistics with
                  totalTasks := l.statistics.totalTasks + 1
                  pendingTasks := l.statistics.pendingTasks + 1
                  completionPercentage :=
                    if l.statistics.totalTasks > 0 then
                      (Pct.div l.statistics.completedTasks
                        (l.statistics.totalTasks + 1)).mulInt 100
                    else Pct.zero } }
          else l)
        error := none }
  | .updateTaskA listId taskId updates =>
      { state with
        lists := state.lists.map (fun l =>
          if l.id == listId then
            let updatedTasks := l.tasks.map (fun t =>
              if t.id == taskId then mergeTask t updates else t)
            let totalTasks : Int := updatedTasks.length
            let completedTasks : Int := (updatedTasks.filter (fun t => t.completed)).length
            { l with
              tasks := updatedTasks
              statistics :=
                { totalTasks := totalTasks
                  completedTasks := completedTasks
                  pendingTasks := totalTasks - completedTasks
                  completionPercentage :=
                    if totalTasks > 0 then
                      (Pct.div completedTasks totalTasks).mulInt 100
                    else Pct.zero
                  lastActivity := now } }
          else l)
        error := none }
  | .deleteTaskA listId taskId =>
      { state with
        lists := state.lists.map (fun l =>
          if l.id == listId then
            { l with
              tasks := l.tasks.filter (fun t => !(t.id == taskId))
              statistics :=
                { l.statistics with
                  totalTasks := l.statistics.totalTasks - 1
                  pendingTasks := l.statistics.pendingTasks - 1
                  completionPercentage :=
                    if l.statistics.totalTasks > 1 then
                      (Pct.div l.statistics.completedTasks
                        (l.statistics.totalTasks - 1)).mulInt 100
                    else Pct.zero } }
          else l)
        error := none }
  | .setFilter f => { state with filter := mergeFilter state.filter f }
  | .setSelectedList id => { state with selectedListId := id }
  | .setLastSync t => { state with lastSync := some t }

/-! ## Auth service (authService.ts): lockout machinery and signIn -/

/-- One recorded login attempt. -/
structure LoginAttempt where
  email : String
  timestamp : Int
  success : Bool
deriving Repr, DecidableEq

/-- The per-email attempt map `loginAttempts`. -/
abbrev AttemptLog := List (String × List LoginAttempt)

/-- Map read `loginAttempts.get(email) || []`. -/
def getAttempts (log : AttemptLog) (email : String) : List LoginAttempt :=
  ((log.find? (fun p => p.1 == email)).map (·.2)).getD []

/-- Map write `loginAttempts.set(email, attempts)`. -/
def setAttempts : AttemptLog → String → List LoginAttempt → AttemptLog
  | [], k, v => [(k, v)]
  | p :: rest, k, v => if p.1 == k then (k, v) :: rest else p :: setAttempts rest k v

/-- Lockout constants of `AuthService`: 5 attempts, 15 minutes in
milliseconds. -/
def maxAttempts : Nat := 5

/-- Lockout window in milliseconds. -/
def lockoutDuration : Int := 15 * 60 * 1000

/-- Method `isUserLockedOut`: at least 5 failed attempts younger than the
lockout window. -/
def isUserLockedOut (log : AttemptLog) (now : Int) (email : String) : Bool :=
  let attempts := getAttempts log email
  let recentFailed := attempts.filter
    (fun a => !a.success && now - a.timestamp < lockoutDuration)
  recentFailed.length ≥ maxAttempts

/-- Method `recordLoginAttempt`: append and keep only the last 10 attempts
(`slice(-10)`). -/
def recordLoginAttempt (log : AttemptLog) (email : String) (now : Int) (success : Bool) :
    AttemptLog :=
  let attempts := getAttempts log email ++ [⟨email, now, success⟩]
  setAttempts log email (attempts.drop (attempts.length - 10))

/-- Session data persisted on a successful sign-in (the token is an opaque
structure encoding subject and expiry; its base64 encoding is not
modelled). -/
structure SessionData where
  tokenSub : String
  tokenIat : Int
  tokenExp : Int
  user : MUser
  expiresAt : Int
  lastActivity : Int
deriving Repr, DecidableEq

/-- Auth service state: the attempt map and the persisted session slot. -/
structure AuthState where
  attempts : AttemptLog
  session : Option SessionData
deriving Repr, DecidableEq

/-- Method `signIn`: validate the form, reject when locked out (before any
recording), match the credentials against the user directory, record the
attempt, and persist a session on success. -/
def signIn (users : List MUser) (now : Int) (st : AuthState) (email password : String) :
    ApiResponse (MUser × String) × AuthState :=
  let validation := loginSchema email password
  if !validation.isValid then
    (fail (firstErr validation .invalidCredentials), st)
  else if isUserLockedOut st.attempts now email then
    (fail .accountLocked, st)
  else
    match users.find? (fun u => u.email == email && u.password == password) with
    | none =>
      (fail .invalidCredentials,
       { st with attempts := recordLoginAttempt st.attempts email now false })
    | some user =>
      let session : SessionData :=
        { tokenSub := user.id
          tokenIat := now
          tokenExp := now + 24 * 60 * 60 * 1000
          user := user
          expiresAt := now + 24 * 60 * 60 * 1000
          lastActivity := now }
      ({ success := true, data := some (user, user.id), message := some "Zalogowano pomyślnie" },
       { attempts := recordLoginAttempt st.attempts email now true
         session := some session })

/-! ## Concrete fixture

A three-user directory and a store in which user `u1` owns list `l1`, shared
with `u2` (email `anna@example.com`); task `t1` is completed, task `t2` is
not; `u2` has an empty (but present) collection; `u3` has none. -/

/-- Fixture user directory. -/
def fxUsers : List MUser :=
  [ ⟨"u1", "jan@example.com", "haslo123", "Jan", none⟩
  , ⟨"u2", "anna@example.com", "haslo123", "Anna", none⟩
  , ⟨"u3", "piotr@example.com", "haslo123", "Piotr", none⟩ ]

/-- Fixture operation context at time 100. -/
def fxCtx : Ctx := ⟨fxUsers, 100, fun n => "g" ++ toString n⟩

/-- Fixture operation context at the later time 200. -/
def fxCtxLater : Ctx := ⟨fxUsers, 200, fun n => "h" ++ toString n⟩

/-- Fixture list owned by `u1`, shared with `anna@example.com`. -/
def fxList : ListRec :=
  { id := "l1", title := "Lista", ownerId := "u1"
    sharedWith := ["anna@example.com"]
    tasks := [⟨"t1", "A", true, none, some 5⟩, ⟨"t2", "B", false, none, none⟩]
    createdAt := 10 }

/-- Fixture service state. -/
def fxSt : SvcState := ⟨[("lists_u1", [fxList]), ("lists_u2", [])], []⟩

/-! ## C1 -/

/-- C1: after every task mutation the maintained statistics are claimed to
equal the values recomputed from the current task sequence, for the service
and for the client reducer alike.  The reducer's `DELETE_TASK` case violates
this: deleting the completed task `t1` from a list with one completed and one
pending task leaves `completedTasks = 1`, `pendingTasks = 0` and
`completionPercentage = 100` in the maintained statistics, while recomputation
from the remaining task sequence gives `completedTasks = 0`,
`pendingTasks = 1` and `completionPercentage = 0`. -/
theorem c1_reducer_deleteTask_stats_drift :
    (listReducer 300 { initialListState with lists := [enrichList fxUsers fxList "u1"] }
        (.deleteTaskA "l1" "t1")).lists.map
      (fun l => (l.statistics.completedTasks,
                 l.statistics.pendingTasks,
                 l.statistics.completionPercentage))
      = [(1, 0, Pct.hundred)] ∧
    (listReducer 300 { initialListState with lists := [enrichList fxUsers fxList "u1"] }
        (.deleteTaskA "l1" "t1")).lists.map
      (fun l => ((calculateStatistics l.toListRec).completedTasks,
                 (calculateStatistics l.toListRec).pendingTasks,
                 (calculateStatistics l.toListRec).completionPercentage))
      = [(0, 1, Pct.zero)] := by
  constructor <;> decide

/-! ## C5 -/

/-- C5: a list deleted by its owner is claimed to disappear from every
subsequent `loadUserLists` of every former collaborator, because every
successful write is claimed to invalidate the caches of every user in the
affected list's `sharedWith`.  The code clears those caches from the
collection as saved after the deletion, in which the deleted list no longer
occurs: after `u2` (the collaborator) has warmed their cache and `u1` deletes
`l1`, the deletion succeeds and empties `u1`'s stored collection, yet `u2`'s
next load is served from the stale cache and still contains `l1`. -/
theorem c5_stale_cache_after_delete :
    (deleteList fxCtx (loadUserLists fxCtx fxSt "u2" {}).2 "u1" "l1").1.success = true ∧
    listsOf (deleteList fxCtx (loadUserLists fxCtx fxSt "u2" {}).2 "u1" "l1").2.store "u1"
      = [] ∧
    ((loadUserLists fxCtxLater
        (deleteList fxCtx (loadUserLists fxCtx fxSt "u2" {}).2 "u1" "l1").2
        "u2" {}).1.data.getD []).map (fun l => l.id) = ["l1"] ∧
    (loadUserLists fxCtxLater
        (deleteList fxCtx (loadUserLists fxCtx fxSt "u2" {}).2 "u1" "l1").2
        "u2" {}).1.message = some "Lists loaded from cache" ∧
    collectShared fxUsers
      (deleteList fxCtx (loadUserLists fxCtx fxSt "u2" {}).2 "u1" "l1").2.store "u2" = [] := by
  refine ⟨by decide, by decide, by decide, by decide, by decide⟩

/-! ## C2 counterexample -/

/-- C2 claims that for a user who is neither owner nor in `sharedWith`, the
operations `updateList`, `deleteList` and `shareList` fail with a permission
error.  They do fail and leave the state unchanged, but the error is the
not-found error (the list is not discoverable for the requester), not a
permission error: user `u3` is neither the owner of `l1` nor in its
`sharedWith`, and all three calls report the not-found message. -/
theorem c2_counterexample_not_found_error :
    fxList.ownerId ≠ "u3" ∧
    getCurrentUserEmail fxUsers "u3" = some "piotr@example.com" ∧
    fxList.sharedWith.contains "piotr@example.com" = false ∧
    (deleteList fxCtx fxSt "u3" "l1").1.error = some .listNotFound ∧
    (updateList fxCtx fxSt "u3" "l1" { title := some "X" }).1.error = some .listNotFound ∧
    (shareList fxCtx fxSt "u3" ⟨"l1", "anna@example.com"⟩).1.error = some .listNotFound ∧
    ErrMsg.isPermissionError .listNotFound = false := by
  refine ⟨by decide, by decide, by decide, by decide, by decide, by decide, by decide⟩

/-! ## C3 counterexample -/

/-- C3 claims no non-owner caller can change `sharedWith` through any
operation, including `updateList`.  User `u2` is a collaborator (not the
owner) of `l1`, yet their `updateList` call carrying a `sharedWith` payload
succeeds and replaces the list's `sharedWith`. -/
theorem c3_counterexample_collaborator_changes_sharedWith :
    fxList.ownerId = "u1" ∧ "u1" ≠ "u2" ∧
    (updateList fxCtx fxSt "u2" "l1"
      { sharedWith := some ["piotr@example.com"] }).1.success = true ∧
    (listsOf (updateList fxCtx fxSt "u2" "l1"
      { sharedWith := some ["piotr@example.com"] }).2.store "u1").map (fun l => l.sharedWith)
      = [["piotr@example.com"]] := by
  refine ⟨by decide, by decide, by decide, by decide⟩

/-! ## C6 counterexample -/

/-- C6 claims no sequence of operations ever makes `sharedWith` exceed 10
entries.  `updateList` performs no validation of its `sharedWith` payload:
the owner's `updateList` call carrying eleven emails succeeds and stores a
`sharedWith` of length 11. -/
theorem c6_counterexample_updateList_exceeds_limit :
    (updateList fxCtx fxSt "u1" "l1"
      { sharedWith := some ((List.range 11).map (fun i => "e" ++ toString i ++ "@x.com")) }
      ).1.success = true ∧
    (listsOf (updateList fxCtx fxSt "u1" "l1"
      { sharedWith := some ((List.range 11).map (fun i => "e" ++ toString i ++ "@x.com")) }
      ).2.store "u1").map (fun l => l.sharedWith.length) = [11] ∧
    11 > MAX_SHARED_USERS := by
  refine ⟨by decide, by decide, by decide⟩

/-! ## C7 counterexample -/

/-- C7 claims that after two successive `toggleTask` calls the task's
`completedAt` is cleared.  Task `t1` of `l1` starts completed: the first
toggle un-completes it and clears `completedAt`, the second completes it
again and stamps a fresh `completedAt` (time 200), which is not cleared. -/
theorem c7_counterexample_completedAt_restamped :
    fxList.tasks.map (fun t => (t.completed, t.completedAt)) = [(true, some 5), (false, none)] ∧
    ((toggleTask fxCtxLater
        (toggleTask fxCtx fxSt "u1" "l1" "t1").2 "u1" "l1" "t1").1.data.map
      (fun t => (t.completed, t.completedAt))) = some (true, some 200) ∧
    (listsOf (toggleTask fxCtxLater
        (toggleTask fxCtx fxSt "u1" "l1" "t1").2 "u1" "l1" "t1").2.store "u1").map
      (fun l => l.tasks.map (fun t => t.completedAt)) = [[some 200, none]] := by
  refine ⟨by decide, by decide, by decide⟩

/-! ## Basic lemmas about the storage and search primitives -/

theorem findIdxElem_eq_none {α : Type} {p : α → Bool} {l : List α} :
    findIdxElem p l = none ↔ ∀ x ∈ l, p x = false := by
  induction l with
  | nil => simp [findIdxElem]
  | cons a as ih =>
    by_cases h : p a = true
    · simp [findIdxElem, h]
    · simp only [Bool.not_eq_true] at h
      simp [findIdxElem, h, ih]

theorem findIdxElem_some {α : Type} {p : α → Bool} {l : List α} {i : Nat} {x : α}
    (h : findIdxElem p l = some (i, x)) :
    x ∈ l ∧ p x = true ∧ l[i]? = some x := by
  induction l generalizing i with
  | nil => simp [findIdxElem] at h
  | cons a as ih =>
    by_cases hp : p a = true
    · simp [findIdxElem, hp] at h
      obtain ⟨hi, hx⟩ := h
      subst hi; subst hx
      exact ⟨List.mem_cons_self a as, hp, by simp⟩
    · simp only [Bool.not_eq_true] at hp
      rw [show findIdxElem p (a :: as) = (findIdxElem p as).map (fun q => (q.1 + 1, q.2)) by
        simp [findIdxElem, hp]] at h
      rcases Option.map_eq_some'.mp h with ⟨⟨j, y⟩, hj, hfq⟩
      obtain ⟨hi, hx⟩ : j + 1 = i ∧ y = x := by simpa [Prod.ext_iff] using hfq
      subst hi; subst hx
      obtain ⟨hm, hpx, hget⟩ := ih hj
      exact ⟨List.mem_cons_of_mem a hm, hpx, by simpa using hget⟩

theorem findIdxElem_set {α : Type} {p : α → Bool} {l : List α} {i : Nat} {x v : α}
    (h : findIdxElem p l = some (i, x)) (hv : p v = true) :
    findIdxElem p (l.set i v) = some (i, v) := by
  induction l generalizing i with
  | nil => simp [findIdxElem] at h
  | cons a as ih =>
    by_cases hp : p a = true
    · simp [findIdxElem, hp] at h
      obtain ⟨hi, _⟩ := h
      subst hi
      simp [List.set, findIdxElem, hv]
    · simp only [Bool.not_eq_true] at hp
      rw [show findIdxElem p (a :: as) = (findIdxElem p as).map (fun q => (q.1 + 1, q.2)) by
        simp [findIdxElem, hp]] at h
      rcases Option.map_eq_some'.mp h with ⟨⟨j, y⟩, hj, hfq⟩
      obtain ⟨hi, hx⟩ : j + 1 = i ∧ y = x := by simpa [Prod.ext_iff] using hfq
      subst hi; subst hx
      simp [List.set, findIdxElem, hp, ih hj]

theorem getItem_cons {q : String × List ListRec} {rest : Store} {k : String} :
    getItem (q :: rest) k = if q.1 == k then some q.2 else getItem rest k := by
  by_cases h : (q.1 == k) = true <;> simp [getItem, List.find?_cons, h]

theorem getItem_setItem_self {st : Store} {k : String} {v : List ListRec} :
    getItem (setItem st k v) k = some v := by
  induction st with
  | nil => simp [setItem, getItem, List.find?_cons]
  | cons q rest ih =>
    by_cases h : (q.1 == k) = true
    · simp [setItem, h, getItem, List.find?_cons]
    · simp only [setItem, h]
      rw [if_neg (by simp [h])]
      rw [getItem_cons, if_neg (by simp [h]), ih]

theorem getItem_setItem_other {st : Store} {k k' : String} {v : List ListRec}
    (h : k' ≠ k) : getItem (setItem st k v) k' = getItem st k' := by
  induction st with
  | nil =>
    simp [setItem, getItem, List.find?_cons, show ((k : String) == k') = false by
      simp [BEq.comm]; exact fun hk => h hk.symm]
  | cons q rest ih =>
    by_cases hq : (q.1 == k) = true
    · have hq' : q.1 = k := by simpa using hq
      rw [show setItem (q :: rest) k v = (k, v) :: rest by simp [setItem, hq]]
      rw [getItem_cons, getItem_cons]
      rw [if_neg (by simp; exact fun hk => h hk.symm), if_neg (by simp [hq']; exact fun hk => h hk.symm)]
    · rw [show setItem (q :: rest) k v = q :: setItem rest k v by simp [setItem, hq]]
      rw [getItem_cons, getItem_cons, ih]

theorem mem_setItem {st : Store} {k : String} {v : List ListRec}
    {q : String × List ListRec} (h : q ∈ setItem st k v) : q = (k, v) ∨ q ∈ st := by
  induction st with
  | nil => simp [setItem] at h; simp [h]
  | cons p rest ih =>
    by_cases hp : (p.1 == k) = true
    · rw [show setItem (p :: rest) k v = (k, v) :: rest by simp [setItem, hp]] at h
      rcases List.mem_cons.mp h with h1 | h2
      · exact Or.inl h1
      · exact Or.inr (List.mem_cons_of_mem p h2)
    · rw [show setItem (p :: rest) k v = p :: setItem rest k v by simp [setItem, hp]] at h
      rcases List.mem_cons.mp h with h1 | h2
      · exact Or.inr (by simp [h1])
      · rcases ih h2 with h3 | h4
        · exact Or.inl h3
        · exact Or.inr (List.mem_cons_of_mem p h4)

theorem getItem_mem {st : Store} {k : String} {ls : List ListRec}
    (h : getItem st k = some ls) : (k, ls) ∈ st := by
  unfold getItem at h
  cases hf : st.find? (fun p => p.1 == k) with
  | none => rw [hf] at h; simp at h
  | some q =>
    rw [hf] at h
    simp at h
    have hmem := List.mem_of_find?_eq_some hf
    have hpred := List.find?_some hf
    have hk : q.1 = k := by simpa using hpred
    have : q = (k, ls) := by
      cases q; simp at hk h ⊢; exact ⟨hk, h⟩
    rw [this] at hmem; exact hmem

theorem getUserListsKey_inj {a b : String} (h : getUserListsKey a = getUserListsKey b) :
    a = b := by
  unfold getUserListsKey at h
  have hd : ("lists_" ++ a).data = ("lists_" ++ b).data := congrArg String.data h
  rw [String.data_append, String.data_append] at hd
  have : a.data = b.data := List.append_cancel_left hd
  exact String.ext this

/-! ## Lemmas about the list lookup -/

theorem sharedPass_spec {st : Store} {userId listId email : String} {us : List MUser}
    {fd : FoundList} (h : sharedPass st userId listId email us = some fd) :
    fd.ownerId ≠ userId ∧
    (getItem st (getUserListsKey fd.ownerId)).getD [] = fd.ownerLists ∧
    findIdxElem (fun l => l.id == listId && l.sharedWith.contains email) fd.ownerLists
      = some (fd.listIndex, fd.list) := by
  induction us with
  | nil => simp [sharedPass] at h
  | cons u rest ih =>
    simp only [sharedPass] at h
    by_cases hu : u.id ≠ userId
    · rw [if_pos hu] at h
      cases hf : findIdxElem (fun l => l.id == listId && l.sharedWith.contains email)
          ((getItem st (getUserListsKey u.id)).getD []) with
      | some q =>
        rw [hf] at h
        cases q with
        | mk i l =>
          simp only [Option.some.injEq] at h
          subst h
          exact ⟨hu, rfl, hf⟩
      | none =>
        rw [hf] at h
        exact ih h
    · rw [if_neg hu] at h
      exact ih h

theorem sharedPass_eq_none {st : Store} {userId listId email : String} {us : List MUser}
    (h : ∀ q ∈ st, ∀ l ∈ q.2, l.id = listId → l.sharedWith.contains email = false) :
    sharedPass st userId listId email us = none := by
  induction us with
  | nil => rfl
  | cons u rest ih =>
    by_cases hu : u.id ≠ userId
    · have hnone : findIdxElem (fun l => l.id == listId && l.sharedWith.contains email)
          ((getItem st (getUserListsKey u.id)).getD []) = none := by
        rw [findIdxElem_eq_none]
        intro l hl
        cases hg : getItem st (getUserListsKey u.id) with
        | none => rw [hg] at hl; simp at hl
        | some ls =>
          rw [hg] at hl; simp only [Option.getD_some] at hl
          by_cases hid : l.id = listId
          · have hc := h _ (getItem_mem hg) l hl hid
            simp only [Bool.and_eq_false_iff]
            right
            exact hc
          · simp [hid]
      simp only [sharedPass]
      rw [if_pos hu, hnone, ih]
    · simp only [sharedPass]
      rw [if_neg hu, ih]

theorem findListById_eq_none {users : List MUser} {st : Store} {userId listId : String}
    (hOwn : ∀ l ∈ listsOf st userId, l.id ≠ listId)
    (hShared : ∀ q ∈ st, ∀ l ∈ q.2, l.id = listId →
      ∀ e, getCurrentUserEmail users userId = some e → l.sharedWith.contains e = false) :
    findListById users st userId listId = none := by
  have hIdx : findIdxElem (fun l => l.id == listId)
      ((getItem st (getUserListsKey userId)).getD []) = none := by
    rw [findIdxElem_eq_none]
    intro l hl
    simpa using hOwn l hl
  unfold findListById
  rw [hIdx]
  cases he : getCurrentUserEmail users userId with
  | none => rfl
  | some e =>
    exact sharedPass_eq_none (fun q hq l hl hid => hShared q hq l hl hid e he)

theorem findListById_spec {users : List MUser} {st : Store} {userId listId : String}
    {fd : FoundList} (h : findListById users st userId listId = some fd) :
    (getItem st (getUserListsKey fd.ownerId)).getD [] = fd.ownerLists ∧
    fd.list ∈ fd.ownerLists ∧ fd.list.id = listId ∧
    fd.ownerLists[fd.listIndex]? = some fd.list ∧
    (fd.ownerId = userId ∨ fd.ownerId ≠ userId) := by
  unfold findListById at h
  cases hf : findIdxElem (fun l => l.id == listId)
      ((getItem st (getUserListsKey userId)).getD []) with
  | some q =>
    rw [hf] at h
    cases q with
    | mk i l =>
      simp only [Option.some.injEq] at h
      subst h
      obtain ⟨hm, hp, hget⟩ := findIdxElem_some hf
      exact ⟨rfl, hm, by simpa using hp, hget, Or.inl rfl⟩
  | none =>
    rw [hf] at h
    cases he : getCurrentUserEmail users userId with
    | none => rw [he] at h; simp at h
    | some e =>
      rw [he] at h
      obtain ⟨hne, hls, hidx⟩ := sharedPass_spec h
      obtain ⟨hm, hp, hget⟩ := findIdxElem_some hidx
      refine ⟨hls, hm, ?_, hget, Or.inr hne⟩
      simp only [Bool.and_eq_true, beq_iff_eq] at hp
      exact hp.1

/-! ## Ownership invariant of the store (claim C10) -/

/-- Invariant: every list record stored in a partition belongs, by its
`ownerId`, to the user whose key that partition is. -/
def StoreInv (st : Store) : Prop :=
  ∀ q ∈ st, ∀ l ∈ q.2, getUserListsKey l.ownerId = q.1

instance : DecidablePred StoreInv := fun st => by
  unfold StoreInv
  infer_instance

theorem storeInv_listsOf {st : Store} (h : StoreInv st) {u : String} :
    ∀ l ∈ listsOf st u, l.ownerId = u := by
  intro l hl
  unfold listsOf at hl
  cases hg : getItem st (getUserListsKey u) with
  | none => rw [hg] at hl; simp at hl
  | some ls =>
    rw [hg] at hl; simp at hl
    have := h _ (getItem_mem hg) l hl
    exact getUserListsKey_inj this

theorem storeInv_setItem {st : Store} (h : StoreInv st) {u : String} {v : List ListRec}
    (hv : ∀ l ∈ v, l.ownerId = u) : StoreInv (setItem st (getUserListsKey u) v) := by
  intro q hq l hl
  rcases mem_setItem hq with h1 | h2
  · subst h1
    simp only []
    rw [hv l hl]
  · exact h q h2 l hl

theorem findListById_inv {users : List MUser} {st : Store} {userId listId : String}
    {fd : FoundList} (hInv : StoreInv st)
    (h : findListById users st userId listId = some fd) :
    fd.list.ownerId = fd.ownerId ∧ ∀ l ∈ fd.ownerLists, l.ownerId = fd.ownerId := by
  obtain ⟨hls, hm, _, _, _⟩ := findListById_spec h
  have hall : ∀ l ∈ fd.ownerLists, l.ownerId = fd.ownerId := by
    have : fd.ownerLists = listsOf st fd.ownerId := by rw [listsOf, hls]
    rw [this]
    exact storeInv_listsOf hInv
  exact ⟨hall fd.list hm, hall⟩

/-! ## C2 (amended) -/

/-- C2 (amended): for every list and every user who is neither the list's
owner nor present (by email) in its `sharedWith`, the operations
`updateList`, `deleteList` and `shareList` all return a failure result with
the list and storage unchanged; the failure carries the not-found error (the
list is not discoverable by the requester), not a permission error.  The
`shareList` hypotheses fix a well-formed, known, non-self target email so that
its earlier validation steps pass. -/
theorem c2_unauthorized_ops_fail (ctx : Ctx) (st : SvcState)
    (userId listId email shareEmail : String) (tgt : MUser) (u : UpdateListPayload)
    (hEmail : getCurrentUserEmail ctx.users userId = some email)
    (hOwn : ∀ l ∈ listsOf st.store userId, l.id ≠ listId)
    (hShared : ∀ q ∈ st.store, ∀ l ∈ q.2, l.id = listId →
      l.sharedWith.contains email = false)
    (hVal : (shareListSchema shareEmail).isValid = true)
    (hTgt : ctx.users.find? (fun w => w.email == shareEmail) = some tgt)
    (hSelf : tgt.id ≠ userId) :
    (updateList ctx st userId listId u).1 = fail .listNotFound ∧
    (updateList ctx st userId listId u).2 = st ∧
    (deleteList ctx st userId listId).1 = fail .listNotFound ∧
    (deleteList ctx st userId listId).2 = st ∧
    (shareList ctx st userId ⟨listId, shareEmail⟩).1 = fail .listNotFound ∧
    (shareList ctx st userId ⟨listId, shareEmail⟩).2 = st ∧
    ErrMsg.isPermissionError .listNotFound = false := by
  have hFind : findListById ctx.users st.store userId listId = none :=
    findListById_eq_none hOwn (fun q hq l hl hid e he => by
      rw [hEmail] at he
      cases he
      exact hShared q hq l hl hid)
  have hFindQ : (listsOf st.store userId).find? (fun l => l.id == listId) = none :=
    List.find?_eq_none.mpr (fun l hl => by simpa using hOwn l hl)
  have hIdxQ : findIdxElem (fun l => l.id == listId) (listsOf st.store userId) = none :=
    findIdxElem_eq_none.mpr (fun l hl => by simpa using hOwn l hl)
  have hSelfB : (tgt.id == userId) = false := by simpa using hSelf
  refine ⟨?_, ?_, ?_, ?_, ?_, ?_, rfl⟩
  · simp only [updateList, hFind]
  · simp only [updateList, hFind]
  · simp only [deleteList, hFindQ]
  · simp only [deleteList, hFindQ]
  · simp only [shareList, hVal, Bool.not_true, Bool.false_eq_true, if_false, hTgt, hSelfB,
      hIdxQ]
  · simp only [shareList, hVal, Bool.not_true, Bool.false_eq_true, if_false, hTgt, hSelfB,
      hIdxQ]

/-- Witness for `c2_unauthorized_ops_fail`: user `u3` against list `l1` of
`u1` in the fixture state. -/
theorem c2_unauthorized_ops_fail_witness :
    (updateList fxCtx fxSt "u3" "l1" { title := some "X" }).1 = fail .listNotFound ∧
    (updateList fxCtx fxSt "u3" "l1" { title := some "X" }).2 = fxSt ∧
    (deleteList fxCtx fxSt "u3" "l1").1 = fail .listNotFound ∧
    (deleteList fxCtx fxSt "u3" "l1").2 = fxSt ∧
    (shareList fxCtx fxSt "u3" ⟨"l1", "anna@example.com"⟩).1 = fail .listNotFound ∧
    (shareList fxCtx fxSt "u3" ⟨"l1", "anna@example.com"⟩).2 = fxSt ∧
    ErrMsg.isPermissionError .listNotFound = false :=
  c2_unauthorized_ops_fail fxCtx fxSt "u3" "l1" "piotr@example.com" "anna@example.com"
    ⟨"u2", "anna@example.com", "haslo123", "Anna", none⟩ { title := some "X" }
    (by decide) (by decide) (by decide) (by decide) (by decide) (by decide)

/-! ## C4: lookup order of findListById -/

/-- Modelled from the spec (section 4.1) and the claim's wording: scan the
requester's own stored collection first; only on a miss, scan every other
known user's collection in directory order for the first record whose id
matches and whose `sharedWith` contains the requester's email (no record
qualifies when the requester has no email); otherwise report `none`
(NotFound).  This definition follows the spec text, to be compared against
the source embedding `findListById`. -/
def sharedScanSpec (st : Store) (userId listId : String) (email? : Option String) :
    List MUser → Option FoundList
  | [] => none
  | u :: rest =>
    if u.id = userId then sharedScanSpec st userId listId email? rest
    else
      match findIdxElem (fun l => l.id == listId &&
          (match email? with | some e => l.sharedWith.contains e | none => false))
          ((getItem st (getUserListsKey u.id)).getD []) with
      | some (i, l) => some ⟨l, u.id, i, (getItem st (getUserListsKey u.id)).getD []⟩
      | none => sharedScanSpec st userId listId email? rest

/-- Modelled from the spec (section 4.1): the two-pass lookup order of the
claim, written from the spec's words. -/
def findListByIdSpec (users : List MUser) (st : Store) (userId listId : String) :
    Option FoundList :=
  match findIdxElem (fun l => l.id == listId) (listsOf st userId) with
  | some (i, l) => some ⟨l, userId, i, listsOf st userId⟩
  | none => sharedScanSpec st userId listId (getCurrentUserEmail users userId) users

theorem sharedScanSpec_none_email {st : Store} {userId listId : String}
    (us : List MUser) : sharedScanSpec st userId listId none us = none := by
  induction us with
  | nil => rfl
  | cons u rest ih =>
    simp only [sharedScanSpec]
    have hnone : findIdxElem (fun l => l.id == listId &&
        (match (none : Option String) with
         | some e => l.sharedWith.contains e | none => false))
        ((getItem st (getUserListsKey u.id)).getD []) = none :=
      findIdxElem_eq_none.mpr (fun l _ => by simp)
    by_cases hu : u.id = userId
    · rw [if_pos hu, ih]
    · rw [if_neg hu, hnone, ih]

theorem sharedScanSpec_some_email {st : Store} {userId listId email : String}
    (us : List MUser) :
    sharedScanSpec st userId listId (some email) us = sharedPass st userId listId email us := by
  induction us with
  | nil => rfl
  | cons u rest ih =>
    simp only [sharedScanSpec, sharedPass]
    by_cases hu : u.id = userId
    · rw [if_pos hu, if_neg (by simpa using hu), ih]
    · rw [if_neg hu, if_pos (by simpa using hu)]
      cases hf : findIdxElem (fun l => l.id == listId && l.sharedWith.contains email)
          ((getItem st (getUserListsKey u.id)).getD []) with
      | some q => rfl
      | none => exact ih

/-- C4: `findListById` resolves exactly in the order the spec describes:
owned collection first (owner = requester), then the first other known user
(in the stable directory enumeration order) holding a record with the
matching id whose `sharedWith` contains the requester's email, else
NotFound — so the resolution is a function of the store and directory and a
list visible to several parties resolves to one single owner record. -/
theorem c4_findListById_follows_spec_order (users : List MUser) (st : Store)
    (userId listId : String) :
    findListById users st userId listId = findListByIdSpec users st userId listId := by
  unfold findListById findListByIdSpec
  rw [show listsOf st userId = (getItem st (getUserListsKey userId)).getD [] from rfl]
  cases hf : findIdxElem (fun l => l.id == listId)
      ((getItem st (getUserListsKey userId)).getD []) with
  | some q => rfl
  | none =>
    cases he : getCurrentUserEmail users userId with
    | none => rw [sharedScanSpec_none_email]
    | some e => rw [sharedScanSpec_some_email]

/-! ## C8: createList limit -/

/-- C8: when a user already stores 50 (or more) lists and the payload passes
validation, `createList` fails with the limit error and the state — in
particular the stored collection — is unchanged; and with a payload that
fails validation, `createList` fails with the state unchanged as well:
validation and the limit check both precede any mutation. -/
theorem c8_createList_limit (ctx : Ctx) (st : SvcState) (userId : String)
    (p q : CreateListPayload)
    (hVal : (createListSchema p.title (p.initialTasks.getD [])).isValid = true)
    (hLen : (listsOf st.store userId).length ≥ 50)
    (hBad : (createListSchema q.title (q.initialTasks.getD [])).isValid = false) :
    (createList ctx st userId p).1 = fail .maxListsReached ∧
    (createList ctx st userId p).2 = st ∧
    (createList ctx st userId q).1.success = false ∧
    (createList ctx st userId q).2 = st := by
  have hLenB : ((listsOf st.store userId).length ≥ 50) = True := by simp [hLen]
  refine ⟨?_, ?_, ?_, ?_⟩
  · simp only [createList, hVal, Bool.not_true, Bool.false_eq_true, if_false, hLenB, if_true]
  · simp only [createList, hVal, Bool.not_true, Bool.false_eq_true, if_false, hLenB, if_true]
  · simp only [createList, hBad, Bool.not_false, if_true, fail]
  · simp only [createList, hBad, Bool.not_false, if_true]

/-- Witness for `c8_createList_limit`: a user with exactly 50 stored lists, a
valid payload and an invalid (empty-title) payload. -/
theorem c8_createList_limit_witness :
    (createList fxCtx
      ⟨[("lists_u1", (List.range 50).map (fun i =>
        { id := "k" ++ toString i, title := "T", ownerId := "u1", sharedWith := [],
          tasks := [], createdAt := 1 }))], []⟩ "u1" { title := "Nowa" }).1
      = fail .maxListsReached ∧
    (createList fxCtx
      ⟨[("lists_u1", (List.range 50).map (fun i =>
        { id := "k" ++ toString i, title := "T", ownerId := "u1", sharedWith := [],
          tasks := [], createdAt := 1 }))], []⟩ "u1" { title := "Nowa" }).2
      = ⟨[("lists_u1", (List.range 50).map (fun i =>
        { id := "k" ++ toString i, title := "T", ownerId := "u1", sharedWith := [],
          tasks := [], createdAt := 1 }))], []⟩ ∧
    (createList fxCtx
      ⟨[("lists_u1", (List.range 50).map (fun i =>
        { id := "k" ++ toString i, title := "T", ownerId := "u1", sharedWith := [],
          tasks := [], createdAt := 1 }))], []⟩ "u1" { title := "" }).1.success = false ∧
    (createList fxCtx
      ⟨[("lists_u1", (List.range 50).map (fun i =>
        { id := "k" ++ toString i, title := "T", ownerId := "u1", sharedWith := [],
          tasks := [], createdAt := 1 }))], []⟩ "u1" { title := "" }).2
      = ⟨[("lists_u1", (List.range 50).map (fun i =>
        { id := "k" ++ toString i, title := "T", ownerId := "u1", sharedWith := [],
          tasks := [], createdAt := 1 }))], []⟩ :=
  c8_createList_limit fxCtx _ "u1" { title := "Nowa" } { title := "" }
    (by decide) (by decide) (by decide)

/-! ## C9: sign-in lockout -/

/-- C9: once the attempt log of an email holds at least 5 failed attempts
whose timestamps lie within the 15-minute window before `now`, every further
`signIn` for that email fails — for every password that passes form
validation, hence regardless of credential correctness — and leaves the
service state (in particular the attempt log) unchanged; and once 15 minutes
have elapsed relative to every failed attempt (in particular the most recent
one), a `signIn` with correct credentials succeeds again. -/
theorem c9_lockout_window (users : List MUser) (st : AuthState) (email : String) :
    (∀ (now : Int) (password : String),
      (loginSchema email password).isValid = true →
      ((getAttempts st.attempts email).filter
        (fun a => !a.success && now - a.timestamp < lockoutDuration)).length ≥ maxAttempts →
      (signIn users now st email password).1.success = false ∧
      (signIn users now st email password).2 = st) ∧
    (∀ (now : Int) (password : String) (user : MUser),
      (loginSchema email password).isValid = true →
      (∀ a ∈ getAttempts st.attempts email, a.success = false →
        now - a.timestamp ≥ lockoutDuration) →
      users.find? (fun u => u.email == email && u.password == password) = some user →
      (signIn users now st email password).1.success = true) := by
  constructor
  · intro now password hVal hCount
    have hLock : isUserLockedOut st.attempts now email = true := by
      unfold isUserLockedOut
      simpa using hCount
    constructor
    · simp only [signIn, hVal, Bool.not_true, Bool.false_eq_true, if_false, hLock, if_true,
        fail]
    · simp only [signIn, hVal, Bool.not_true, Bool.false_eq_true, if_false, hLock, if_true]
  · intro now password user hVal hWin hFound
    have hLock : isUserLockedOut st.attempts now email = false := by
      unfold isUserLockedOut
      have hnil : (getAttempts st.attempts email).filter
          (fun a => !a.success && now - a.timestamp < lockoutDuration) = [] := by
        rw [List.filter_eq_nil_iff]
        intro a ha
        cases hs : a.success with
        | true => simp [hs]
        | false =>
          have := hWin a ha hs
          simp [hs]
          omega
      simp only [hnil]
      simp [maxAttempts]
    simp only [signIn, hVal, Bool.not_true, Bool.false_eq_true, if_false, hLock,
      Bool.false_eq_true, if_false, hFound]

/-- Fixture attempt log: five failed attempts for `jan@example.com` at times
90 through 94. -/
def fxLockLog : AttemptLog :=
  [("jan@example.com",
    [ ⟨"jan@example.com", 90, false⟩
    , ⟨"jan@example.com", 91, false⟩
    , ⟨"jan@example.com", 92, false⟩
    , ⟨"jan@example.com", 93, false⟩
    , ⟨"jan@example.com", 94, false⟩ ])]

/-- Witness for `c9_lockout_window`: at time 100 the five failures lie in the
window and the correct password is rejected with the log unchanged; at time
900100 the window has elapsed for every failure and the same credentials
succeed. -/
theorem c9_lockout_window_witness :
    ((signIn fxUsers 100 ⟨fxLockLog, none⟩ "jan@example.com" "haslo123").1.success = false ∧
     (signIn fxUsers 100 ⟨fxLockLog, none⟩ "jan@example.com" "haslo123").2
       = ⟨fxLockLog, none⟩) ∧
    (signIn fxUsers 900100 ⟨fxLockLog, none⟩ "jan@example.com" "haslo123").1.success = true :=
  ⟨(c9_lockout_window fxUsers ⟨fxLockLog, none⟩ "jan@example.com").1 100 "haslo123"
      (by decide) (by decide),
   (c9_lockout_window fxUsers ⟨fxLockLog, none⟩ "jan@example.com").2 900100 "haslo123"
      ⟨"u1", "jan@example.com", "haslo123", "Jan", none⟩
      (by decide) (by decide) (by decide)⟩

/-! ## C3 (amended) -/

/-- C3 (amended): only the owner can successfully delete a list
(`deleteList`) or share it through `shareList`; the owner or any collaborator
whose email is in `sharedWith` (the edit permission) can successfully rename
it and add, update, delete and toggle its tasks.  However `updateList` only
requires the edit permission and applies a provided `sharedWith` field
verbatim, so any editor — including a non-owner collaborator — can change
`sharedWith` through `updateList`. -/
theorem c3_owner_and_editor_permissions (ctx : Ctx) (st : SvcState) :
    (∀ userId listId, (deleteList ctx st userId listId).1.success = true →
      ∃ l ∈ listsOf st.store userId, l.id = listId ∧ l.ownerId = userId) ∧
    (∀ userId (p : ShareListPayload), (shareList ctx st userId p).1.success = true →
      ∃ l ∈ listsOf st.store userId, l.id = p.listId ∧ l.ownerId = userId) ∧
    (∀ userId listId fd t,
      findListById ctx.users st.store userId listId = some fd →
      canUserEditList ctx.users fd.list userId = true →
      validateListTitle t = none →
      (updateList ctx st userId listId { title := some t }).1.success = true) ∧
    (∀ userId listId fd sw,
      findListById ctx.users st.store userId listId = some fd →
      canUserEditList ctx.users fd.list userId = true →
      (updateList ctx st userId listId { sharedWith := some sw }).1.success = true ∧
      listsOf (updateList ctx st userId listId { sharedWith := some sw }).2.store fd.ownerId
        = fd.ownerLists.set fd.listIndex
            { fd.list with sharedWith := sw, updatedAt := some ctx.now }) ∧
    (∀ userId (p : CreateTaskPayload) fd,
      findListById ctx.users st.store userId p.listId = some fd →
      canUserEditList ctx.users fd.list userId = true →
      (addTaskSchema p.text).isValid = true →
      fd.list.tasks.length < MAX_TASKS_PER_LIST →
      (addTask ctx st userId p).1.success = true) ∧
    (∀ userId listId taskId fd ti task (u : UpdateTaskPayload),
      findListById ctx.users st.store userId listId = some fd →
      canUserEditList ctx.users fd.list userId = true →
      findIdxElem (fun x => x.id == taskId) fd.list.tasks = some (ti, task) →
      (match u.text with | some t => validateTaskText t | none => none) = none →
      (updateTask ctx st userId listId taskId u).1.success = true) ∧
    (∀ userId listId taskId fd,
      findListById ctx.users st.store userId listId = some fd →
      canUserEditList ctx.users fd.list userId = true →
      fd.list.tasks.any (fun x => x.id == taskId) = true →
      (deleteTask ctx st userId listId taskId).1.success = true) ∧
    (∀ userId listId taskId fd ti task,
      findListById ctx.users st.store userId listId = some fd →
      canUserEditList ctx.users fd.list userId = true →
      findIdxElem (fun x => x.id == taskId) fd.list.tasks = some (ti, task) →
      (toggleTask ctx st userId listId taskId).1.success = true) := by
  refine ⟨?_, ?_, ?_, ?_, ?_, ?_, ?_, ?_⟩
  · -- deleteList success forces ownership
    intro userId listId h
    cases hf : (listsOf st.store userId).find? (fun l => l.id == listId) with
    | none => simp [deleteList, hf, fail] at h
    | some l =>
      by_cases ho : l.ownerId ≠ userId
      · simp [deleteList, hf, ho, fail] at h
      · simp only [ne_eq, not_not] at ho
        refine ⟨l, List.mem_of_find?_eq_some hf, ?_, ho⟩
        simpa using List.find?_some hf
  · -- shareList success forces ownership
    intro userId p h
    by_cases hv : (shareListSchema p.userEmail).isValid
    · cases ht : ctx.users.find? (fun w => w.email == p.userEmail) with
      | none => simp [shareList, hv, ht, fail] at h
      | some tgt =>
        cases hself : (tgt.id == userId) with
        | true => simp [shareList, hv, ht, hself, fail] at h
        | false =>
          cases hfi : findIdxElem (fun l => l.id == p.listId) (listsOf st.store userId) with
          | none => simp [shareList, hv, ht, hself, hfi, fail] at h
          | some q =>
            cases q with
            | mk i list =>
              by_cases ho : list.ownerId ≠ userId
              · simp [shareList, hv, ht, hself, hfi, ho, fail] at h
              · simp only [ne_eq, not_not] at ho
                obtain ⟨hm, hp, _⟩ := findIdxElem_some hfi
                exact ⟨list, hm, by simpa using hp, ho⟩
    · simp [shareList, hv, fail] at h
  · -- rename under edit permission succeeds
    intro userId listId fd t hFind hPerm hTitle
    simp only [updateList, hFind, hPerm, Bool.not_true, Bool.false_eq_true, if_false,
      hTitle, succeed]
  · -- sharedWith update under edit permission succeeds and is applied
    intro userId listId fd sw hFind hPerm
    constructor
    · simp only [updateList, hFind, hPerm, Bool.not_true, Bool.false_eq_true, if_false,
        succeed]
    · simp only [updateList, hFind, hPerm, Bool.not_true, Bool.false_eq_true, if_false,
        saveUserLists, listsOf]
      rw [getItem_setItem_self]
      rfl
  · -- addTask under edit permission succeeds
    intro userId p fd hFind hPerm hVal hLt
    simp only [addTask, hVal, Bool.not_true, Bool.false_eq_true, if_false, hFind, hPerm,
      succeed]
    rw [if_neg (by omega)]
  · -- updateTask under edit permission succeeds
    intro userId listId taskId fd ti task u hFind hPerm hTask hText
    simp only [updateTask, hFind, hPerm, Bool.not_true, Bool.false_eq_true, if_false,
      hTask, hText, succeed]
  · -- deleteTask under edit permission succeeds
    intro userId listId taskId fd hFind hPerm hAny
    simp only [deleteTask, hFind, hPerm, Bool.not_true, Bool.false_eq_true, if_false,
      hAny, succeed]
  · -- toggleTask under edit permission succeeds
    intro userId listId taskId fd ti task hFind hPerm hTask
    simp only [toggleTask, hFind, hPerm, Bool.not_true, Bool.false_eq_true, if_false,
      hTask, succeed]

/-- Witness for `c3_owner_and_editor_permissions`: in the fixture, owner `u1`
deletes and shares `l1`; collaborator `u2` renames it, replaces its
`sharedWith`, and adds, updates, deletes and toggles tasks. -/
theorem c3_owner_and_editor_permissions_witness :
    (∃ l ∈ listsOf fxSt.store "u1", l.id = "l1" ∧ l.ownerId = "u1") ∧
    (∃ l ∈ listsOf fxSt.store "u1", l.id = "l1" ∧ l.ownerId = "u1") ∧
    (updateList fxCtx fxSt "u2" "l1" { title := some "Nowy" }).1.success = true ∧
    ((updateList fxCtx fxSt "u2" "l1" { sharedWith := some ["x@y.pl"] }).1.success = true ∧
      listsOf (updateList fxCtx fxSt "u2" "l1"
        { sharedWith := some ["x@y.pl"] }).2.store "u1"
        = [fxList].set 0 { fxList with sharedWith := ["x@y.pl"], updatedAt := some 100 }) ∧
    (addTask fxCtx fxSt "u2" ⟨"Chleb", "l1"⟩).1.success = true ∧
    (updateTask fxCtx fxSt "u2" "l1" "t2" { completed := some true }).1.success = true ∧
    (deleteTask fxCtx fxSt "u2" "l1" "t2").1.success = true ∧
    (toggleTask fxCtx fxSt "u2" "l1" "t2").1.success = true := by
  have h := c3_owner_and_editor_permissions fxCtx fxSt
  exact ⟨h.1 "u1" "l1" (by decide),
    h.2.1 "u1" ⟨"l1", "piotr@example.com"⟩ (by decide),
    h.2.2.1 "u2" "l1" ⟨fxList, "u1", 0, [fxList]⟩ "Nowy" (by decide) (by decide) (by decide),
    h.2.2.2.1 "u2" "l1" ⟨fxList, "u1", 0, [fxList]⟩ ["x@y.pl"] (by decide) (by decide),
    h.2.2.2.2.1 "u2" ⟨"Chleb", "l1"⟩ ⟨fxList, "u1", 0, [fxList]⟩
      (by decide) (by decide) (by decide) (by decide),
    h.2.2.2.2.2.1 "u2" "l1" "t2" ⟨fxList, "u1", 0, [fxList]⟩ 1 ⟨"t2", "B", false, none, none⟩
      { completed := some true } (by decide) (by decide) (by decide) (by decide),
    h.2.2.2.2.2.2.1 "u2" "l1" "t2" ⟨fxList, "u1", 0, [fxList]⟩
      (by decide) (by decide) (by decide),
    h.2.2.2.2.2.2.2 "u2" "l1" "t2" ⟨fxList, "u1", 0, [fxList]⟩ 1 ⟨"t2", "B", false, none, none⟩
      (by decide) (by decide) (by decide)⟩

/-! ## C6 (amended) -/

/-- Bound of the spec (section 3): every stored list's `sharedWith` has at
most `MAX_SHARED_USERS` entries. -/
def SharedBound (st : Store) : Prop :=
  ∀ q ∈ st, ∀ l ∈ q.2, l.sharedWith.length ≤ MAX_SHARED_USERS

instance : DecidablePred SharedBound := fun st => by
  unfold SharedBound
  infer_instance

/-- C6 (amended): calling `shareList` twice with the same email on a list
that can be shared (owner caller, known non-self target, not yet shared,
below the ceiling) succeeds the first time and fails the second time with the
already-shared error, leaving the state unchanged; and `shareList` preserves
the 10-entry bound on every stored `sharedWith` (any successful share leaves
the affected list at or below 10 entries).  `updateList`, however, does not
enforce the bound (see the counterexample), so the original "no sequence of
operations" form does not hold. -/
theorem c6_duplicate_share_and_bound (ctx : Ctx) (st : SvcState) (userId : String)
    (p : ShareListPayload) :
    (∀ tgt i list,
      (shareListSchema p.userEmail).isValid = true →
      ctx.users.find? (fun w => w.email == p.userEmail) = some tgt →
      (tgt.id == userId) = false →
      findIdxElem (fun l => l.id == p.listId) (listsOf st.store userId) = some (i, list) →
      list.ownerId = userId →
      list.sharedWith.contains p.userEmail = false →
      list.sharedWith.length < MAX_SHARED_USERS →
      (shareList ctx st userId p).1.success = true ∧
      (shareList ctx (shareList ctx st userId p).2 userId p).1 = fail .alreadyShared ∧
      (shareList ctx (shareList ctx st userId p).2 userId p).2
        = (shareList ctx st userId p).2) ∧
    (SharedBound st.store → SharedBound (shareList ctx st userId p).2.store) := by
  constructor
  · intro tgt i list hv ht hself hfi hOwn hDup hLen
    have hOwnNe : ¬(list.ownerId ≠ userId) := by simp [hOwn]
    have hLenNe : ¬(list.sharedWith.length ≥ MAX_SHARED_USERS) := by omega
    have hDupMem : p.userEmail ∉ list.sharedWith := by simpa using hDup
    have hstore1 : (shareList ctx st userId p).2.store
        = setItem st.store (getUserListsKey userId)
            ((listsOf st.store userId).set i
              { list with sharedWith := list.sharedWith ++ [p.userEmail], updatedAt := some ctx.now }) := by
      simp [shareList, hv, ht, hself, hfi, hOwnNe, hDupMem, hLenNe, saveUserLists]
    have hsucc1 : (shareList ctx st userId p).1.success = true := by
      simp [shareList, hv, ht, hself, hfi, hOwnNe, hDupMem, hLenNe, succeed]
    have hpred : ((fun l => l.id == p.listId)
        ({ list with sharedWith := list.sharedWith ++ [p.userEmail], updatedAt := some ctx.now } : ListRec)) = true := by
      have := (findIdxElem_some hfi).2.1
      simpa using this
    have hfi2 : findIdxElem (fun l => l.id == p.listId)
        (listsOf (shareList ctx st userId p).2.store userId)
        = some (i, { list with sharedWith := list.sharedWith ++ [p.userEmail], updatedAt := some ctx.now }) := by
      rw [show listsOf (shareList ctx st userId p).2.store userId
          = (listsOf st.store userId).set i
              { list with sharedWith := list.sharedWith ++ [p.userEmail], updatedAt := some ctx.now } by
        rw [listsOf, hstore1, getItem_setItem_self, Option.getD_some]]
      exact findIdxElem_set hfi hpred
    have h2 : ∀ st1 : SvcState,
        findIdxElem (fun l => l.id == p.listId) (listsOf st1.store userId)
          = some (i, { list with sharedWith := list.sharedWith ++ [p.userEmail], updatedAt := some ctx.now }) →
        shareList ctx st1 userId p = (fail .alreadyShared, st1) := by
      intro st1 hfi1
      simp [shareList, hv, ht, hself, hfi1, hOwn]
    exact ⟨hsucc1, by rw [h2 _ hfi2], by rw [h2 _ hfi2]⟩
  · intro hB
    by_cases hv : (shareListSchema p.userEmail).isValid
    · cases ht : ctx.users.find? (fun w => w.email == p.userEmail) with
      | none => simpa [shareList, hv, ht] using hB
      | some tgt =>
        cases hself : (tgt.id == userId) with
        | true => simpa [shareList, hv, ht, hself] using hB
        | false =>
          cases hfi : findIdxElem (fun l => l.id == p.listId) (listsOf st.store userId) with
          | none => simpa [shareList, hv, ht, hself, hfi] using hB
          | some q =>
            cases q with
            | mk i list =>
              by_cases ho : list.ownerId ≠ userId
              · simpa [shareList, hv, ht, hself, hfi, ho] using hB
              · by_cases hDup : p.userEmail ∈ list.sharedWith
                · simpa [shareList, hv, ht, hself, hfi, ho, hDup] using hB
                · by_cases hLen : list.sharedWith.length ≥ MAX_SHARED_USERS
                  · simpa [shareList, hv, ht, hself, hfi, ho, hDup, hLen] using hB
                  · have hgoal : (shareList ctx st userId p).2.store
                        = setItem st.store (getUserListsKey userId)
                            ((listsOf st.store userId).set i
                              { list with sharedWith := list.sharedWith ++ [p.userEmail], updatedAt := some ctx.now }) := by
                      simp [shareList, hv, ht, hself, hfi, ho, hDup, hLen, saveUserLists]
                    rw [hgoal]
                    intro q hq l hl
                    rcases mem_setItem hq with h1 | h2
                    · subst h1
                      simp only [] at hl
                      rcases List.mem_or_eq_of_mem_set hl with hml | hel
                      · cases hg : getItem st.store (getUserListsKey userId) with
                        | none => rw [listsOf, hg] at hml; simp at hml
                        | some ls =>
                          rw [listsOf, hg, Option.getD_some] at hml
                          exact hB _ (getItem_mem hg) l hml
                      · subst hel
                        simp only [List.length_append, List.length_cons, List.length_nil]
                        omega
                    · exact hB q h2 l hl
    · simpa [shareList, hv] using hB

/-- Witness for `c6_duplicate_share_and_bound`: owner `u1` shares `l1` with
`piotr@example.com` twice in the fixture state, which also satisfies the
bound. -/
theorem c6_duplicate_share_and_bound_witness :
    ((shareList fxCtx fxSt "u1" ⟨"l1", "piotr@example.com"⟩).1.success = true ∧
     (shareList fxCtx (shareList fxCtx fxSt "u1" ⟨"l1", "piotr@example.com"⟩).2 "u1"
        ⟨"l1", "piotr@example.com"⟩).1 = fail .alreadyShared ∧
     (shareList fxCtx (shareList fxCtx fxSt "u1" ⟨"l1", "piotr@example.com"⟩).2 "u1"
        ⟨"l1", "piotr@example.com"⟩).2
       = (shareList fxCtx fxSt "u1" ⟨"l1", "piotr@example.com"⟩).2) ∧
    SharedBound (shareList fxCtx fxSt "u1" ⟨"l1", "piotr@example.com"⟩).2.store := by
  have h := c6_duplicate_share_and_bound fxCtx fxSt "u1" ⟨"l1", "piotr@example.com"⟩
  exact ⟨h.1 ⟨"u3", "piotr@example.com", "haslo123", "Piotr", none⟩ 0 fxList
      (by decide) (by decide) (by decide) (by decide) (by decide) (by decide) (by decide),
    h.2 (by decide)⟩

/-! ## Stability of the lookup under a write-back (for sequential operation
reasoning) -/

theorem sharedPass_after_set {st : Store} {userId listId email : String} {fd : FoundList}
    {l' : ListRec} (hid : (l'.id == listId) = true)
    (hsw : l'.sharedWith = fd.list.sharedWith)
    (hls : (getItem st (getUserListsKey fd.ownerId)).getD [] = fd.ownerLists)
    (hidx : findIdxElem (fun l => l.id == listId && l.sharedWith.contains email)
      fd.ownerLists = some (fd.listIndex, fd.list)) :
    ∀ us : List MUser, sharedPass st userId listId email us = some fd →
    sharedPass (setItem st (getUserListsKey fd.ownerId)
        (fd.ownerLists.set fd.listIndex l')) userId listId email us
      = some ⟨l', fd.ownerId, fd.listIndex, fd.ownerLists.set fd.listIndex l'⟩ := by
  have hpred' : ((fun l => l.id == listId && l.sharedWith.contains email) l') = true := by
    have hc := (findIdxElem_some hidx).2.1
    simp only [Bool.and_eq_true] at hc
    show (l'.id == listId && l'.sharedWith.contains email) = true
    rw [hsw]
    simp only [Bool.and_eq_true]
    exact ⟨hid, hc.2⟩
  intro us
  induction us with
  | nil => intro h; simp [sharedPass] at h
  | cons u rest ih =>
    intro h
    simp only [sharedPass] at h ⊢
    by_cases hu : u.id ≠ userId
    · rw [if_pos hu] at h ⊢
      cases hcur : findIdxElem (fun l => l.id == listId && l.sharedWith.contains email)
          ((getItem st (getUserListsKey u.id)).getD []) with
      | some q =>
        rw [hcur] at h
        cases q with
        | mk j x =>
          simp only [Option.some.injEq] at h
          have hoid : u.id = fd.ownerId := congrArg FoundList.ownerId h
          rw [hoid]
          rw [show getItem (setItem st (getUserListsKey fd.ownerId)
              (fd.ownerLists.set fd.listIndex l')) (getUserListsKey fd.ownerId)
              = some (fd.ownerLists.set fd.listIndex l') from getItem_setItem_self]
          simp only [Option.getD_some]
          rw [findIdxElem_set hidx hpred']
      | none =>
        rw [hcur] at h
        by_cases hown : u.id = fd.ownerId
        · exfalso
          rw [hown] at hcur
          rw [hls] at hcur
          rw [hcur] at hidx
          exact Option.noConfusion hidx
        · rw [getItem_setItem_other (fun he => hown (getUserListsKey_inj he))]
          rw [hcur]
          exact ih h
    · rw [if_neg hu] at h ⊢
      exact ih h

theorem findListById_after_set {users : List MUser} {st : Store} {userId listId : String}
    {fd : FoundList} (h : findListById users st userId listId = some fd)
    {l' : ListRec} (hid : l'.id = fd.list.id) (hsw : l'.sharedWith = fd.list.sharedWith) :
    findListById users
      (setItem st (getUserListsKey fd.ownerId) (fd.ownerLists.set fd.listIndex l'))
      userId listId
      = some ⟨l', fd.ownerId, fd.listIndex, fd.ownerLists.set fd.listIndex l'⟩ := by
  have hidEq : fd.list.id = listId := (findListById_spec h).2.2.1
  have hid' : (l'.id == listId) = true := by simp [hid, hidEq]
  unfold findListById at h ⊢
  cases hf : findIdxElem (fun l => l.id == listId)
      ((getItem st (getUserListsKey userId)).getD []) with
  | some q =>
    rw [hf] at h
    cases q with
    | mk i l =>
      simp only [Option.some.injEq] at h
      subst h
      rw [show getItem (setItem st (getUserListsKey userId)
          (((getItem st (getUserListsKey userId)).getD []).set i l'))
          (getUserListsKey userId)
          = some (((getItem st (getUserListsKey userId)).getD []).set i l') from
        getItem_setItem_self]
      simp only [Option.getD_some]
      rw [findIdxElem_set hf hid']
  | none =>
    rw [hf] at h
    cases he : getCurrentUserEmail users userId with
    | none => rw [he] at h; simp at h
    | some e =>
      rw [he] at h
      obtain ⟨hne, hls, hidx⟩ := sharedPass_spec h
      have hother : getUserListsKey userId ≠ getUserListsKey fd.ownerId := by
        intro heq
        exact hne (getUserListsKey_inj heq).symm
      rw [getItem_setItem_other hother, hf]
      have h' : sharedPass st userId listId e users = some fd := h
      exact sharedPass_after_set hid' hsw hls hidx users h' 

/-! ## C7 (amended) -/

/-- Task produced by one `toggleTask` application (the `updatedTask` record
of the source). -/
def toggledTask (now : Int) (task : Task) : Task :=
  { task with
    completed := !task.completed
    completedAt := if !task.completed then some now else none }

/-- List produced by one `toggleTask` application (the `updatedList` record
of the source). -/
def toggledList (now : Int) (l : ListRec) (ti : Nat) (task : Task) : ListRec :=
  { l with tasks := l.tasks.set ti (toggledTask now task), updatedAt := some now }

/-- C7 (amended): for an authorized user, two successive `toggleTask` calls
(no interleaved operations) return the task's `completed` flag to its value
before the first call; after the second call `completedAt` is cleared
(`undefined`) exactly when the task was incomplete before the first call —
when the task was originally completed, the second call instead stamps a
fresh `completedAt` with the current time. -/
theorem c7_toggle_twice (ctx1 ctx2 : Ctx) (st : SvcState) (userId listId taskId : String)
    (fd : FoundList) (ti : Nat) (task : Task)
    (hUsers : ctx2.users = ctx1.users)
    (hFind : findListById ctx1.users st.store userId listId = some fd)
    (hPerm : canUserEditList ctx1.users fd.list userId = true)
    (hTask : findIdxElem (fun x => x.id == taskId) fd.list.tasks = some (ti, task)) :
    (toggleTask ctx2 (toggleTask ctx1 st userId listId taskId).2
      userId listId taskId).1.success = true ∧
    ((toggleTask ctx2 (toggleTask ctx1 st userId listId taskId).2
      userId listId taskId).1.data.map (fun t => t.completed)) = some task.completed ∧
    ((toggleTask ctx2 (toggleTask ctx1 st userId listId taskId).2
      userId listId taskId).1.data.map (fun t => t.completedAt))
      = some (if task.completed then some ctx2.now else none) := by
  have hstore1 : (toggleTask ctx1 st userId listId taskId).2.store
      = setItem st.store (getUserListsKey fd.ownerId)
          (fd.ownerLists.set fd.listIndex (toggledList ctx1.now fd.list ti task)) := by
    simp [toggleTask, hFind, hPerm, hTask, saveUserLists, toggledList, toggledTask]
  have hfd2 : findListById ctx2.users
      (toggleTask ctx1 st userId listId taskId).2.store userId listId
      = some ⟨toggledList ctx1.now fd.list ti task, fd.ownerId, fd.listIndex,
          fd.ownerLists.set fd.listIndex (toggledList ctx1.now fd.list ti task)⟩ := by
    rw [hUsers, hstore1]
    exact findListById_after_set hFind rfl rfl
  have hPerm2 : canUserEditList ctx2.users (toggledList ctx1.now fd.list ti task) userId
      = true := by
    rw [hUsers]
    exact hPerm
  have hTask2 : findIdxElem (fun x => x.id == taskId)
      (toggledList ctx1.now fd.list ti task).tasks
      = some (ti, toggledTask ctx1.now task) := by
    show findIdxElem (fun x => x.id == taskId)
      (fd.list.tasks.set ti (toggledTask ctx1.now task)) = some (ti, toggledTask ctx1.now task)
    refine findIdxElem_set hTask ?_
    show ((toggledTask ctx1.now task).id == taskId) = true
    simpa [toggledTask] using (findIdxElem_some hTask).2.1
  have h2 : ∀ st1 : SvcState,
      findListById ctx2.users st1.store userId listId
        = some ⟨toggledList ctx1.now fd.list ti task, fd.ownerId, fd.listIndex,
            fd.ownerLists.set fd.listIndex (toggledList ctx1.now fd.list ti task)⟩ →
      (toggleTask ctx2 st1 userId listId taskId).1
        = succeed (toggledTask ctx2.now (toggledTask ctx1.now task))
            (if (toggledTask ctx2.now (toggledTask ctx1.now task)).completed
             then "Zadanie zostało ukończone" else "Zadanie zostało oznaczone jako nieukończone") := by
    intro st1 hf1
    simp [toggleTask, hf1, hPerm2, hTask2, succeed, toggledTask]
  have hres := h2 _ hfd2
  rw [hres]
  refine ⟨rfl, ?_, ?_⟩
  · simp [succeed, toggledTask]
  · simp [succeed, toggledTask]

/-- Witness for `c7_toggle_twice`: owner `u1` toggles the initially-completed
task `t1` of `l1` twice; `completed` returns to `true` and `completedAt` is
restamped with the second call's time 200. -/
theorem c7_toggle_twice_witness :
    (toggleTask fxCtxLater (toggleTask fxCtx fxSt "u1" "l1" "t1").2
      "u1" "l1" "t1").1.success = true ∧
    ((toggleTask fxCtxLater (toggleTask fxCtx fxSt "u1" "l1" "t1").2
      "u1" "l1" "t1").1.data.map (fun t => t.completed)) = some true ∧
    ((toggleTask fxCtxLater (toggleTask fxCtx fxSt "u1" "l1" "t1").2
      "u1" "l1" "t1").1.data.map (fun t => t.completedAt))
      = some (if true then some (200 : Int) else none) :=
  c7_toggle_twice fxCtx fxCtxLater fxSt "u1" "l1" "t1"
    ⟨fxList, "u1", 0, [fxList]⟩ 0 ⟨"t1", "A", true, none, some 5⟩
    (by decide) (by decide) (by decide) (by decide)

/-! ## C10: the ownership invariant -/

theorem storeInv_setOwner {users : List MUser} {st : Store} (hInv : StoreInv st)
    {userId listId : String} {fd : FoundList}
    (hf : findListById users st userId listId = some fd)
    {l' : ListRec} (hl' : l'.ownerId = fd.list.ownerId) :
    StoreInv (setItem st (getUserListsKey fd.ownerId)
      (fd.ownerLists.set fd.listIndex l')) := by
  obtain ⟨hLOwn, hAll⟩ := findListById_inv hInv hf
  apply storeInv_setItem hInv
  intro l hl
  rcases List.mem_or_eq_of_mem_set hl with hm | he
  · exact hAll l hm
  · subst he
    rw [hl', hLOwn]

/-- C10: if every list stored in a user's partition has that user as its
`ownerId`, then every service operation preserves this: `loadUserLists` seeds
sample lists owned by the requester, `createList` writes a list with
`ownerId = caller` into the caller's partition, the task operations and
`updateList` write the modified list (with `ownerId` unchanged) back into the
resolved owner's partition, `shareList` rewrites the owner's own partition,
and `deleteList` only removes entries — and consequently the owner-check
inside `deleteList` only ever sees lists the requester owns, so its
permission error is unreachable. -/
theorem c10_store_ownership_invariant (ctx : Ctx) (st : SvcState)
    (userId listId taskId : String) (f : ListFilter) (pc : CreateListPayload)
    (pu : UpdateListPayload) (ps : ShareListPayload) (pt : CreateTaskPayload)
    (ut : UpdateTaskPayload)
    (hInv : StoreInv st.store) :
    StoreInv (loadUserLists ctx st userId f).2.store ∧
    StoreInv (createList ctx st userId pc).2.store ∧
    StoreInv (updateList ctx st userId listId pu).2.store ∧
    StoreInv (deleteList ctx st userId listId).2.store ∧
    StoreInv (shareList ctx st userId ps).2.store ∧
    StoreInv (addTask ctx st userId pt).2.store ∧
    StoreInv (updateTask ctx st userId listId taskId ut).2.store ∧
    StoreInv (deleteTask ctx st userId listId taskId).2.store ∧
    StoreInv (toggleTask ctx st userId listId taskId).2.store ∧
    (deleteList ctx st userId listId).1.error ≠ some .onlyOwnerCanDelete := by
  have hSample : ∀ l ∈ sampleLists ctx userId, l.ownerId = userId := by
    intro l hl
    simp only [sampleLists, List.mem_cons, List.mem_singleton] at hl
    rcases hl with h | h | h
    · subst h; rfl
    · subst h; rfl
    · simp at h
  refine ⟨?_, ?_, ?_, ?_, ?_, ?_, ?_, ?_, ?_, ?_⟩
  · -- loadUserLists
    cases hc : cacheGet st.cache (userId ++ "_" ++ serializeFilter f) with
    | some cached => simpa [loadUserLists, hc] using hInv
    | none =>
      cases hg : getItem st.store (getUserListsKey userId) with
      | some ls => simpa [loadUserLists, hc, hg] using hInv
      | none =>
        have hst : (loadUserLists ctx st userId f).2.store
            = setItem st.store (getUserListsKey userId) (sampleLists ctx userId) := by
          simp [loadUserLists, hc, hg]
        rw [hst]
        exact storeInv_setItem hInv hSample
  · -- createList
    cases hv : (createListSchema pc.title (pc.initialTasks.getD [])).isValid with
    | false => simpa [createList, hv] using hInv
    | true =>
      by_cases hLen : (listsOf st.store userId).length ≥ 50
      · simpa [createList, hv, hLen] using hInv
      · have hst : (createList ctx st userId pc).2.store
            = setItem st.store (getUserListsKey userId)
                ({ id := ctx.freshId 0, title := jsTrim pc.title, ownerId := userId,
                   sharedWith := [],
                   tasks := (pc.initialTasks.getD []).enum.map (fun q =>
                     { id := ctx.freshId (q.1 + 1), text := jsTrim q.2, completed := false,
                       createdAt := some ctx.now }),
                   createdAt := ctx.now } :: listsOf st.store userId) := by
          simp [createList, hv, hLen, saveUserLists]
        rw [hst]
        apply storeInv_setItem hInv
        intro l hl
        rcases List.mem_cons.mp hl with h | h
        · subst h; rfl
        · exact storeInv_listsOf hInv l h
  · -- updateList
    cases hf : findListById ctx.users st.store userId listId with
    | none => simpa [updateList, hf] using hInv
    | some fd =>
      cases hperm : canUserEditList ctx.users fd.list userId with
      | false => simpa [updateList, hf, hperm] using hInv
      | true =>
        cases htitle : (match pu.title with
            | some t => validateListTitle t | none => none) with
        | some e => simpa [updateList, hf, hperm, htitle] using hInv
        | none =>
          have hst : (updateList ctx st userId listId pu).2.store
              = setItem st.store (getUserListsKey fd.ownerId)
                  (fd.ownerLists.set fd.listIndex
                    { fd.list with
                      title := match pu.title with
                        | some t => if jsTrim t == "" then fd.list.title else jsTrim t
                        | none => fd.list.title
                      sharedWith := pu.sharedWith.getD fd.list.sharedWith
                      updatedAt := some ctx.now }) := by
            simp [updateList, hf, hperm, htitle, saveUserLists]
          rw [hst]
          exact storeInv_setOwner hInv hf rfl
  · -- deleteList
    cases hfq : (listsOf st.store userId).find? (fun l => l.id == listId) with
    | none => simpa [deleteList, hfq] using hInv
    | some l =>
      have hOwn : l.ownerId = userId :=
        storeInv_listsOf hInv l (List.mem_of_find?_eq_some hfq)
      have hOwnNe : ¬(l.ownerId ≠ userId) := by simp [hOwn]
      have hst : (deleteList ctx st userId listId).2.store
          = setItem st.store (getUserListsKey userId)
              ((listsOf st.store userId).filter (fun x => !(x.id == listId))) := by
        simp [deleteList, hfq, hOwnNe, saveUserLists]
      rw [hst]
      apply storeInv_setItem hInv
      intro x hx
      exact storeInv_listsOf hInv x (List.mem_of_mem_filter hx)
  · -- shareList
    by_cases hv : (shareListSchema ps.userEmail).isValid
    · cases ht : ctx.users.find? (fun w => w.email == ps.userEmail) with
      | none => simpa [shareList, hv, ht] using hInv
      | some tgt =>
        cases hself : (tgt.id == userId) with
        | true => simpa [shareList, hv, ht, hself] using hInv
        | false =>
          cases hfi : findIdxElem (fun l => l.id == ps.listId) (listsOf st.store userId) with
          | none => simpa [shareList, hv, ht, hself, hfi] using hInv
          | some q =>
            cases q with
            | mk i list =>
              by_cases ho : list.ownerId ≠ userId
              · simpa [shareList, hv, ht, hself, hfi, ho] using hInv
              · by_cases hDup : ps.userEmail ∈ list.sharedWith
                · simpa [shareList, hv, ht, hself, hfi, ho, hDup] using hInv
                · by_cases hLen : list.sharedWith.length ≥ MAX_SHARED_USERS
                  · simpa [shareList, hv, ht, hself, hfi, ho, hDup, hLen] using hInv
                  · simp only [ne_eq, not_not] at ho
                    have hst : (shareList ctx st userId ps).2.store
                        = setItem st.store (getUserListsKey userId)
                            ((listsOf st.store userId).set i
                              { list with sharedWith := list.sharedWith ++ [ps.userEmail], updatedAt := some ctx.now }) := by
                      simp [shareList, hv, ht, hself, hfi, ho, hDup, hLen, saveUserLists]
                    rw [hst]
                    apply storeInv_setItem hInv
                    intro x hx
                    rcases List.mem_or_eq_of_mem_set hx with hm | he
                    · exact storeInv_listsOf hInv x hm
                    · subst he
                      exact ho
    · simpa [shareList, hv] using hInv
  · -- addTask
    cases hv : (addTaskSchema pt.text).isValid with
    | false => simpa [addTask, hv] using hInv
    | true =>
      cases hf : findListById ctx.users st.store userId pt.listId with
      | none => simpa [addTask, hv, hf] using hInv
      | some fd =>
        cases hperm : canUserEditList ctx.users fd.list userId with
        | false => simpa [addTask, hv, hf, hperm] using hInv
        | true =>
          by_cases hLen : fd.list.tasks.length ≥ MAX_TASKS_PER_LIST
          · simpa [addTask, hv, hf, hperm, hLen] using hInv
          · have hst : (addTask ctx st userId pt).2.store
                = setItem st.store (getUserListsKey fd.ownerId)
                    (fd.ownerLists.set fd.listIndex
                      { fd.list with
                        tasks := fd.list.tasks ++
                          [{ id := ctx.freshId 0, text := jsTrim pt.text, completed := false,
                             createdAt := some ctx.now }]
                        updatedAt := some ctx.now }) := by
              simp [addTask, hv, hf, hperm, hLen, saveUserLists]
            rw [hst]
            exact storeInv_setOwner hInv hf rfl
  · -- updateTask
    cases hf : findListById ctx.users st.store userId listId with
    | none => simpa [updateTask, hf] using hInv
    | some fd =>
      cases hperm : canUserEditList ctx.users fd.list userId with
      | false => simpa [updateTask, hf, hperm] using hInv
      | true =>
        cases hti : findIdxElem (fun x => x.id == taskId) fd.list.tasks with
        | none => simpa [updateTask, hf, hperm, hti] using hInv
        | some q =>
          cases q with
          | mk ti task =>
            cases htext : (match ut.text with
                | some t => validateTaskText t | none => none) with
            | some e => simpa [updateTask, hf, hperm, hti, htext] using hInv
            | none =>
              have hst : (updateTask ctx st userId listId taskId ut).2.store
                  = setItem st.store (getUserListsKey fd.ownerId)
                      (fd.ownerLists.set fd.listIndex
                        { fd.list with
                          tasks := fd.list.tasks.set ti
                            { task with
                              text := match ut.text with
                                | some t => if jsTrim t == "" then task.text else jsTrim t
                                | none => task.text
                              completed := ut.completed.getD task.completed
                              completedAt :=
                                if ut.completed.getD false && !task.completed then some ctx.now
                                else task.completedAt }
                          updatedAt := some ctx.now }) := by
                simp [updateTask, hf, hperm, hti, htext, saveUserLists]
              rw [hst]
              exact storeInv_setOwner hInv hf rfl
  · -- deleteTask
    cases hf : findListById ctx.users st.store userId listId with
    | none => simpa [deleteTask, hf] using hInv
    | some fd =>
      cases hperm : canUserEditList ctx.users fd.list userId with
      | false => simpa [deleteTask, hf, hperm] using hInv
      | true =>
        cases hex : fd.list.tasks.any (fun x => x.id == taskId) with
        | false => simpa [deleteTask, hf, hperm, hex] using hInv
        | true =>
          have hst : (deleteTask ctx st userId listId taskId).2.store
              = setItem st.store (getUserListsKey fd.ownerId)
                  (fd.ownerLists.set fd.listIndex
                    { fd.list with
                      tasks := fd.list.tasks.filter (fun x => !(x.id == taskId))
                      updatedAt := some ctx.now }) := by
            simp [deleteTask, hf, hperm, hex, saveUserLists]
          rw [hst]
          exact storeInv_setOwner hInv hf rfl
  · -- toggleTask
    cases hf : findListById ctx.users st.store userId listId with
    | none => simpa [toggleTask, hf] using hInv
    | some fd =>
      cases hperm : canUserEditList ctx.users fd.list userId with
      | false => simpa [toggleTask, hf, hperm] using hInv
      | true =>
        cases hti : findIdxElem (fun x => x.id == taskId) fd.list.tasks with
        | none => simpa [toggleTask, hf, hperm, hti] using hInv
        | some q =>
          cases q with
          | mk ti task =>
            have hst : (toggleTask ctx st userId listId taskId).2.store
                = setItem st.store (getUserListsKey fd.ownerId)
                    (fd.ownerLists.set fd.listIndex (toggledList ctx.now fd.list ti task)) := by
              simp [toggleTask, hf, hperm, hti, saveUserLists, toggledList, toggledTask]
            rw [hst]
            exact storeInv_setOwner hInv hf rfl
  · -- the owner-check of deleteList is unreachable under the invariant
    cases hfq : (listsOf st.store userId).find? (fun l => l.id == listId) with
    | none => simp [deleteList, hfq, fail]
    | some l =>
      have hOwn : l.ownerId = userId :=
        storeInv_listsOf hInv l (List.mem_of_find?_eq_some hfq)
      have hOwnNe : ¬(l.ownerId ≠ userId) := by simp [hOwn]
      simp [deleteList, hfq, hOwnNe]

/-- Witness for `c10_store_ownership_invariant`: the fixture state satisfies
the invariant, and every operation applied there preserves it. -/
theorem c10_store_ownership_invariant_witness :
    StoreInv (loadUserLists fxCtx fxSt "u1" {}).2.store ∧
    StoreInv (createList fxCtx fxSt "u1" { title := "Nowa" }).2.store ∧
    StoreInv (updateList fxCtx fxSt "u1" "l1" { title := some "X" }).2.store ∧
    StoreInv (deleteList fxCtx fxSt "u1" "l1").2.store ∧
    StoreInv (shareList fxCtx fxSt "u1" ⟨"l1", "piotr@example.com"⟩).2.store ∧
    StoreInv (addTask fxCtx fxSt "u1" ⟨"Chleb", "l1"⟩).2.store ∧
    StoreInv (updateTask fxCtx fxSt "u1" "l1" "t1" { completed := some false }).2.store ∧
    StoreInv (deleteTask fxCtx fxSt "u1" "l1" "t1").2.store ∧
    StoreInv (toggleTask fxCtx fxSt "u1" "l1" "t1").2.store ∧
    (deleteList fxCtx fxSt "u1" "l1").1.error ≠ some .onlyOwnerCanDelete :=
  c10_store_ownership_invariant fxCtx fxSt "u1" "l1" "t1" {} { title := "Nowa" }
    { title := some "X" } ⟨"l1", "piotr@example.com"⟩ ⟨"Chleb", "l1"⟩
    { completed := some false } (by decide)

end ListApp
